import Mathlib

/-!
Verification of the eBay-scraping repository's model-classification and
file-resolution core (`pixel_all_only.py`, `iphone_all_only.py`, `test.py`).

Strings are embedded as `List Char` / `String`; each Python regex used by the
scripts is translated into an explicit matcher that follows the regex engine's
behaviour (leftmost match, alternatives tried in written order, greedy
quantifiers with backtracking).  Case-insensitive matching (`re.IGNORECASE`)
is embedded through `Char.toLower`, which covers the ASCII alphabet the
patterns are written in.
-/

/-- Word character for `\b` (Python `\w` restricted to ASCII: letters, digits, underscore). -/
def isWordChar (c : Char) : Bool := c.isAlphanum || c = '_'

/-- Case-insensitive literal matcher: `ciStrip pat s` consumes `pat` (up to case)
from the front of `s`, returning the consumed characters (original casing) and
the rest.  Embeds a regex literal under `re.IGNORECASE`. -/
def ciStrip : List Char → List Char → Option (List Char × List Char)
  | [], s => some ([], s)
  | _ :: _, [] => none
  | p :: ps, c :: cs =>
    if c.toLower = p.toLower then
      match ciStrip ps cs with
      | some (co, r) => some (c :: co, r)
      | none => none
    else none

/-- Case-sensitive literal matcher, returning the rest of the input. -/
def csStrip : List Char → List Char → Option (List Char)
  | [], s => some s
  | _ :: _, [] => none
  | p :: ps, c :: cs => if c = p then csStrip ps cs else none

/-- Greedy `\s+`: the maximal whitespace run (must be nonempty).  Every use in
the embedded regexes is followed by a literal starting with a non-whitespace
character, so the maximal run is the only viable choice. -/
def wsPlus (s : List Char) : Option (List Char × List Char) :=
  let w := s.takeWhile Char.isWhitespace
  if w.isEmpty then none else some (w, s.drop w.length)

/-- Python `str.strip()` (whitespace from both ends). -/
def pyStrip (s : List Char) : List Char :=
  ((s.dropWhile Char.isWhitespace).reverse.dropWhile Char.isWhitespace).reverse

/-- Helper for `re.sub(r'\s+', ' ', ·)`: `prevWs` records whether the previous
character was whitespace (already emitted as a single space). -/
def collapseWsAux (prevWs : Bool) : List Char → List Char
  | [] => []
  | c :: rest =>
    if c.isWhitespace then
      (if prevWs then [] else [' ']) ++ collapseWsAux true rest
    else c :: collapseWsAux false rest

/-- `re.sub(r'\s+', ' ', s)`: every maximal whitespace run becomes one space. -/
def collapseWs (s : List Char) : List Char := collapseWsAux false s

/-- Python `list(dict.fromkeys(models))`: deduplicate keeping first occurrence. -/
def pyDedupAux (seen : List String) : List String → List String
  | [] => []
  | x :: xs => if seen.contains x then pyDedupAux seen xs else x :: pyDedupAux (x :: seen) xs

def pyDedup (l : List String) : List String := pyDedupAux [] l

/-- Python `needle in hay` (substring containment, case-sensitive). -/
def csStartsWith (needle hay : List Char) : Bool := (csStrip needle hay).isSome

def pyIn (needle : String) (hay : String) : Bool := go needle.data hay.data where
  go (n : List Char) : List Char → Bool
    | [] => csStartsWith n []
    | c :: rest => csStartsWith n (c :: rest) || go n rest

/-- Lowercasing a character list (Python `str.lower()` on the ASCII alphabet). -/
def lowerL (s : List Char) : List Char := s.map Char.toLower

/-- Python `str.split()` (split on whitespace runs, dropping empties). -/
def pySplit (s : List Char) : List (List Char) :=
  let step := fun (c : Char) (acc : List Char × List (List Char)) =>
    if c.isWhitespace then
      (if acc.1.isEmpty then acc else ([], acc.1 :: acc.2))
    else (c :: acc.1, acc.2)
  let r := s.foldr step ([], [])
  if r.1.isEmpty then r.2 else r.1 :: r.2

/-- Lexicographic comparison of char lists by code point (Python `<` on `str`). -/
def clLt : List Char → List Char → Bool
  | [], [] => false
  | [], _ :: _ => true
  | _ :: _, [] => false
  | a :: as, b :: bs => if a < b then true else if b < a then false else clLt as bs

def strLeB (a b : String) : Bool := !(clLt b.data a.data)

/-- Stable insertion sort with `strLeB`, embedding Python `sorted` on filename strings. -/
def insertSorted (x : String) : List String → List String
  | [] => [x]
  | y :: ys => if strLeB x y then x :: y :: ys else y :: insertSorted x ys

def pySorted : List String → List String
  | [] => []
  | x :: xs => insertSorted x (pySorted xs)

/-!
Regex scanner for the model-token patterns.

`MODEL_RE` (pixel_all_only.py):
  `(?:Google\s+)?Pixel\s+((?:[1-9][0-9]?)(?:\s?(?:Pro|XL|Pro XL|a))?)\b(?:\s*5G)?`
`MODEL_RE` (test.py):
  `(?:Google\s+)?Pixel\s+((?:[1-9][0-9]?)(?:\s?(?:Pro\s+XL|Pro|XL|a))?)\b(?:\s*5G)?`
`IPHONE_MODEL_RE` (iphone_all_only.py):
  `(?:Apple\s+)?iPhone\s+((?:[1-9][0-9]?)(?:\s?(?:Pro\s+Max|Pro|Plus|Mini|Max))?)\b`

A suffix alternative is a sequence of atoms (case-insensitive literal or `\s+`).
The engine enumerates the regex's backtracking candidates for
`(?:\s?(?:A|B|...))?` in the engine's preference order (with the optional
whitespace first, alternatives in written order, then the empty match) and
commits to the first candidate after which `\b` holds — subsequent parts of
the patterns (`(?:\s*5G)?` or nothing) always succeed, so no further
backtracking can occur.
-/

inductive RAtom
  | lit : List Char → RAtom
  | ws1 : RAtom

def matchAtoms : List RAtom → List Char → Option (List Char × List Char)
  | [], s => some ([], s)
  | .lit p :: as, s =>
    match ciStrip p s with
    | some (co, r) =>
      match matchAtoms as r with
      | some (co2, r2) => some (co ++ co2, r2)
      | none => none
    | none => none
  | .ws1 :: as, s =>
    match wsPlus s with
    | some (w, r) =>
      match matchAtoms as r with
      | some (co2, r2) => some (w ++ co2, r2)
      | none => none
    | none => none

/-- Backtracking candidates of `(?:\s?(?:alt₁|alt₂|...))?` at `s`, as
(consumed, rest) pairs in the regex engine's preference order. -/
def altCandidates (alts : List (List RAtom)) (s : List Char) : List (List Char × List Char) :=
  (match s with
   | c :: rest =>
     if c.isWhitespace then
       alts.filterMap (fun a => (matchAtoms a rest).map (fun p => (c :: p.1, p.2)))
     else []
   | [] => [])
  ++ alts.filterMap (fun a => matchAtoms a s)
  ++ [([], s)]

/-- `\b` between a last consumed character and the rest of the input. -/
def boundaryOk (prev : Char) (rest : List Char) : Bool :=
  isWordChar prev != (match rest with | c :: _ => isWordChar c | [] => false)

def firstBoundaryOk (num : List Char) : List (List Char × List Char) → Option (List Char × List Char)
  | [] => none
  | (co, r) :: cs =>
    if boundaryOk ((num ++ co).getLastD 'x') r then some (co, r) else firstBoundaryOk num cs

/-- `(?:\s*5G)?` (pixel patterns only): greedy maximal whitespace run then `5G`;
a shorter whitespace run would leave a whitespace character where `5` is
required, so no other candidate is viable. -/
def fiveGSkip (fiveG : Bool) (s : List Char) : List Char :=
  if fiveG then
    match ciStrip "5G".data (s.dropWhile Char.isWhitespace) with
    | some (_, r) => r
    | none => s
  else s

/-- Suffix-and-boundary part: first `\s?`-alternative candidate after which `\b`
holds; the capture group includes the optional whitespace. -/
def sufPart (alts : List (List RAtom)) (num : List Char) (s : List Char) (fiveG : Bool) :
    Option (List Char × List Char) :=
  match firstBoundaryOk num (altCandidates alts s) with
  | some (co, r) => some (num ++ co, fiveGSkip fiveG r)
  | none => none

/-- `Family\s+((?:[1-9][0-9]?)(?:\s?(?:alts))?)\b(?:\s*5G)?` at the start of `s`;
returns (capture-group-1, rest after the whole match).  The greedy `[0-9]?` is
given back if the rest of the pattern fails with it (it then always fails
without it as well, since the next character is a digit, but the engine's
backtracking is embedded as written). -/
def matchFamilyCore (family : List Char) (alts : List (List RAtom)) (fiveG : Bool)
    (s : List Char) : Option (List Char × List Char) :=
  match ciStrip family s with
  | none => none
  | some (_, r1) =>
    match wsPlus r1 with
    | none => none
    | some (_, r2) =>
      match r2 with
      | [] => none
      | d1 :: r3 =>
        if d1.isDigit && d1 ≠ '0' then
          match r3 with
          | d2 :: r4 =>
            if d2.isDigit then
              match sufPart alts [d1, d2] r4 fiveG with
              | some res => some res
              | none => sufPart alts [d1] (d2 :: r4) fiveG
            else sufPart alts [d1] r3 fiveG
          | [] => sufPart alts [d1] [] fiveG
        else none

/-- Optional brand prefix `(?:Brand\s+)?` (greedy: tried first), then the core. -/
def matchFamilyAt (brand family : List Char) (alts : List (List RAtom)) (fiveG : Bool)
    (s : List Char) : Option (List Char × List Char) :=
  match
    (match ciStrip brand s with
     | some (_, r1) =>
       match wsPlus r1 with
       | some (_, r2) => matchFamilyCore family alts fiveG r2
       | none => none
     | none => none)
  with
  | some res => some res
  | none => matchFamilyCore family alts fiveG s

/-- `re.finditer`: leftmost non-overlapping matches; on failure advance one
character.  Fuel (the input length) only serves structural recursion — every
match consumes at least one character. -/
def scanAux (brand family : List Char) (alts : List (List RAtom)) (fiveG : Bool) :
    Nat → List Char → List (List Char)
  | 0, _ => []
  | _ + 1, [] => []
  | fuel + 1, c :: rest =>
    match matchFamilyAt brand family alts fiveG (c :: rest) with
    | some (cap, r) => cap :: scanAux brand family alts fiveG fuel r
    | none => scanAux brand family alts fiveG fuel rest

def scanTokens (brand family : List Char) (alts : List (List RAtom)) (fiveG : Bool)
    (s : List Char) : List (List Char) :=
  scanAux brand family alts fiveG s.length s

/-- Suffix alternatives of `MODEL_RE` in pixel_all_only.py, in the written
order `Pro|XL|Pro XL|a`. -/
def pixelAltsAll : List (List RAtom) :=
  [[.lit "Pro".data], [.lit "XL".data], [.lit "Pro XL".data], [.lit "a".data]]

/-- Suffix alternatives of `MODEL_RE` in test.py: `Pro\s+XL|Pro|XL|a`. -/
def pixelAltsTest : List (List RAtom) :=
  [[.lit "Pro".data, .ws1, .lit "XL".data], [.lit "Pro".data], [.lit "XL".data], [.lit "a".data]]

/-- Suffix alternatives of `IPHONE_MODEL_RE`: `Pro\s+Max|Pro|Plus|Mini|Max`. -/
def iphoneAlts : List (List RAtom) :=
  [[.lit "Pro".data, .ws1, .lit "Max".data], [.lit "Pro".data], [.lit "Plus".data],
   [.lit "Mini".data], [.lit "Max".data]]

def MODEL_RE_tokens (s : List Char) : List (List Char) :=
  scanTokens "Google".data "Pixel".data pixelAltsAll true s

def MODEL_RE_testpy_tokens (s : List Char) : List (List Char) :=
  scanTokens "Google".data "Pixel".data pixelAltsTest true s

def IPHONE_MODEL_RE_tokens (s : List Char) : List (List Char) :=
  scanTokens "Apple".data "iPhone".data iphoneAlts false s

/-!
Normalizers.

`normalize_model_token` (pixel_all_only.py): collapse whitespace and strip,
then `re.match(r'^([1-9][0-9]?)(?:\s?(Pro|XL|Pro XL|a))?$', t, re.IGNORECASE)`
and render the canonical string from the lowercased suffix group.
test.py uses the alternative order `Pro\s+XL|Pro|XL|a` and `.strip().lower()`;
iphone_all_only.py uses `Pro\s+Max|Pro|Plus|Mini|Max` and `.strip().lower()`.

In the anchored tail `(?:\s?(alts))?$`, capture group 2 excludes the optional
whitespace, and `$` matches at the end of the string (or before one final
newline, as in Python).
-/

def atDollar (s : List Char) : Bool := s.isEmpty || s = ['\n']

/-- Candidates of `\s?(alt₁|alt₂|...)` at `s` as (group-2 consumed, rest) in
preference order (whitespace consumed first, alternatives in written order). -/
def normCandidates (alts : List (List RAtom)) (s : List Char) : List (List Char × List Char) :=
  (match s with
   | c :: rest => if c.isWhitespace then alts.filterMap (fun a => matchAtoms a rest) else []
   | [] => [])
  ++ alts.filterMap (fun a => matchAtoms a s)

def firstDollarOk : List (List Char × List Char) → Option (List Char)
  | [] => none
  | (co, r) :: cs => if atDollar r then some co else firstDollarOk cs

/-- `(?:\s?(alts))?$`: `some (some g)` when the group matched `g`, `some none`
when the optional group matched empty and `$` holds, `none` on failure. -/
def normTail (alts : List (List RAtom)) (s : List Char) : Option (Option (List Char)) :=
  match firstDollarOk (normCandidates alts s) with
  | some co => some (some co)
  | none => if atDollar s then some none else none

/-- `^([1-9][0-9]?)(?:\s?(alts))?$`: the greedy `[0-9]?` is given back if the
anchored tail fails with the second digit consumed. -/
def normParse (alts : List (List RAtom)) (t : List Char) :
    Option (List Char × Option (List Char)) :=
  match t with
  | [] => none
  | d1 :: r1 =>
    if d1.isDigit && d1 ≠ '0' then
      match r1 with
      | d2 :: r2 =>
        if d2.isDigit then
          match normTail alts r2 with
          | some osuf => some ([d1, d2], osuf)
          | none =>
            match normTail alts (d2 :: r2) with
            | some osuf => some ([d1], osuf)
            | none => none
        else
          match normTail alts r1 with
          | some osuf => some ([d1], osuf)
          | none => none
      | [] =>
        match normTail alts [] with
        | some osuf => some ([d1], osuf)
        | none => none
    else none

/-- Rendering table of pixel normalizers (`if suf == 'pro': ...` chains). -/
def pixelRender (num : List Char) (suf : String) : Option String :=
  if suf = "" then some ("Pixel " ++ String.mk num)
  else if suf = "pro" then some ("Pixel " ++ String.mk num ++ " Pro")
  else if suf = "xl" then some ("Pixel " ++ String.mk num ++ " XL")
  else if suf = "pro xl" then some ("Pixel " ++ String.mk num ++ " Pro XL")
  else if suf = "a" then some ("Pixel " ++ String.mk num ++ "a")
  else none

/-- Rendering table of `normalize_iphone_token`. -/
def iphoneRender (num : List Char) (suf : String) : Option String :=
  if suf = "" then some ("iPhone " ++ String.mk num)
  else if suf = "pro max" then some ("iPhone " ++ String.mk num ++ " Pro Max")
  else if suf = "pro" then some ("iPhone " ++ String.mk num ++ " Pro")
  else if suf = "plus" then some ("iPhone " ++ String.mk num ++ " Plus")
  else if suf = "mini" then some ("iPhone " ++ String.mk num ++ " Mini")
  else if suf = "max" then some ("iPhone " ++ String.mk num ++ " Max")
  else none

/-- `normalize_model_token` of pixel_all_only.py (`suf = (m.group(2) or '').lower()`). -/
def normalize_model_token (token : List Char) : Option String :=
  let t := collapseWs (pyStrip token)
  match normParse pixelAltsAll t with
  | some (num, osuf) => pixelRender num (String.mk (lowerL (osuf.getD [])))
  | none => none

/-- `normalize_model_token` of test.py (`suf = (m.group(2) or '').strip().lower()`). -/
def normalize_model_token_testpy (token : List Char) : Option String :=
  let t := collapseWs (pyStrip token)
  match normParse pixelAltsTest t with
  | some (num, osuf) => pixelRender num (String.mk (lowerL (pyStrip (osuf.getD []))))
  | none => none

/-- `normalize_iphone_token` of iphone_all_only.py. -/
def normalize_iphone_token (token : List Char) : Option String :=
  let t := collapseWs (pyStrip token)
  match normParse iphoneAlts t with
  | some (num, osuf) => iphoneRender num (String.mk (lowerL (pyStrip (osuf.getD []))))
  | none => none

/-- Canonical models recognized in a title by pixel_all_only.py: scanner
captures, normalized, deduplicated preserving first-seen order. -/
def pixel_recognized_models (title : String) : List String :=
  pyDedup ((MODEL_RE_tokens title.data).filterMap normalize_model_token)

/-- `extract_single_model_or_none` (pixel_all_only.py):
`models[0] if len(models) == 1 else None`. -/
def extract_single_model_or_none (title : String) : Option String :=
  let models := pixel_recognized_models title
  if models.length = 1 then models.head? else none

def pixel_recognized_models_testpy (title : String) : List String :=
  pyDedup ((MODEL_RE_testpy_tokens title.data).filterMap normalize_model_token_testpy)

/-- `extract_single_model_or_none` as defined in test.py. -/
def extract_single_model_or_none_testpy (title : String) : Option String :=
  let models := pixel_recognized_models_testpy title
  if models.length = 1 then models.head? else none

def iphone_recognized_models (title : String) : List String :=
  pyDedup ((IPHONE_MODEL_RE_tokens title.data).filterMap normalize_iphone_token)

/-- `extract_single_iphone_model_or_none` (iphone_all_only.py). -/
def extract_single_iphone_model_or_none (title : String) : Option String :=
  let models := iphone_recognized_models title
  if models.length = 1 then models.head? else none

/-!
Title field extractors (`extract_storage`, `extract_condition`, `PartsOnly`).

`extract_storage`: `re.search(r'(\d{2,4})\s?GB\b', title, re.IGNORECASE)`,
formatted as `"<digits> GB"`, else `"Unknown"`.
-/

/-- `GB\b` at `s` (case-insensitive literal then word boundary). -/
def gbB (s : List Char) : Bool :=
  match ciStrip "GB".data s with
  | some (_, r) =>
    (match r with
     | c :: _ => !(isWordChar c)
     | [] => true)
  | none => false

/-- `\s?GB\b` after `k` digits taken at `s` (greedy `\s?`: with the whitespace
character first, then without). -/
def storageK (s : List Char) (k : Nat) : Bool :=
  let rest := s.drop k
  (match rest with
   | c :: r => if c.isWhitespace then gbB r else false
   | [] => false)
  || gbB rest

/-- Greedy `\d{2,4}` at `s`: try `k` digits from the largest viable count down
to 2, with the rest of the pattern after each. -/
def storageTryK (s : List Char) : Nat → Option (List Char)
  | 0 => none
  | 1 => none
  | k + 2 => if storageK s (k + 2) then some (s.take (k + 2)) else storageTryK s (k + 1)

def matchStorageAt (s : List Char) : Option (List Char) :=
  storageTryK s (min (s.takeWhile Char.isDigit).length 4)

/-- `re.search`: leftmost position whose match attempt succeeds. -/
def searchStorage : List Char → Option (List Char)
  | [] => none
  | c :: rest =>
    match matchStorageAt (c :: rest) with
    | some d => some d
    | none => searchStorage rest

/-- `extract_storage` (identical in pixel_all_only.py, iphone_all_only.py, test.py). -/
def extract_storage (title : String) : String :=
  match searchStorage title.data with
  | some d => String.mk d ++ " GB"
  | none => "Unknown"

/-- `extract_condition`: case-sensitive substring checks in fixed priority order. -/
def extract_condition (title : String) : String :=
  if pyIn "Excellent" title then "Excellent"
  else if pyIn "Very" title then "Very Good"
  else if pyIn "Good" title then "Good"
  else "Unknown"

/-- `Title.str.contains('Parts Only', case=False, regex=False)`. -/
def partsOnlyFlag (title : String) : Bool :=
  go (lowerL "Parts Only".data) (lowerL title.data) where
  go (n : List Char) : List Char → Bool
    | [] => csStartsWith n []
    | c :: rest => csStartsWith n (c :: rest) || go n rest

/-!
Source file resolvers.

`find_csv_for_model` (pixel_all_only.py):
  grammar `^Pixel\s+([0-9]{1,2})(?:\s+(Pro|XL)(?:\s+XL)?)?$` (IGNORECASE;
  `ValueError` if it does not match), then filename pattern
  `\bpixel` + `[\s_-]*tok` for each whitespace-token of
  `model_name.replace("Pixel", "").strip().split()` + `\b.*\.csv$` (IGNORECASE),
  searched in each `*.csv` filename of the directory; the sorted matches'
  first element is returned.
-/

/-- `$`-anchored tail `.*\.csv$` searched from the current position: `.` does
not cross a newline and `$` also matches before one final newline. -/
def csvTail (rest : List Char) : Bool :=
  let body := if rest.getLast? = some '\n' then rest.dropLast else rest
  (ciStrip ".csv".data (body.drop (body.length - 4))).isSome
    && decide (4 ≤ body.length)
    && !((body.take (body.length - 4)).contains '\n')

/-- Character class `[\s_-]`. -/
def isSep (c : Char) : Bool := c.isWhitespace || c = '_' || c = '-'

/-- `[\s_-]*tok` for each token, greedily (tokens start with letters or digits,
never with a class character, so the maximal run is the only viable choice). -/
def sepToks : List (List Char) → List Char → Option (List Char)
  | [], s => some s
  | tok :: toks, s =>
    let r := s.dropWhile isSep
    match ciStrip tok r with
    | some (_, r2) => sepToks toks r2
    | none => none

/-- Last character of the last token (for the `\b` after the tokens). -/
def lastTokChar (toks : List (List Char)) (dflt : Char) : Char :=
  toks.foldl (fun acc t => t.getLastD acc) dflt

/-- Pixel filename pattern of pixel_all_only.py at one position: `prevWord` is
whether the preceding character is a word character (for the leading `\b`). -/
def pixelFilePatAt (toks : List (List Char)) (prevWord : Bool) (s : List Char) : Bool :=
  if prevWord then false
  else
    match ciStrip "pixel".data s with
    | none => false
    | some (co, r) =>
      match sepToks toks r with
      | none => false
      | some r2 =>
        boundaryOk (if toks.isEmpty then co.getLastD 'x' else lastTokChar toks 'x') r2
          && csvTail r2

/-- `pattern.search(name)`: try the pattern at every position. -/
def searchAt (patAt : Bool → List Char → Bool) : Bool → List Char → Bool
  | prevWord, [] => patAt prevWord []
  | prevWord, c :: rest => patAt prevWord (c :: rest) || searchAt patAt (isWordChar c) rest

/-- Python `"Pixel"`-removal of `model_name.replace("Pixel", "")` (case-sensitive,
every occurrence; the nested pattern gives structural recursion). -/
def removePixelWord : List Char → List Char
  | 'P' :: 'i' :: 'x' :: 'e' :: 'l' :: rest => removePixelWord rest
  | c :: rest => c :: removePixelWord rest
  | [] => []

/-- Tail `(?:\s+(Pro|XL)(?:\s+XL)?)?$` of the pixel model-name grammar. -/
def pixelGrammarTail (s : List Char) : Bool :=
  (match wsPlus s with
   | some (_, r) =>
     (match ciStrip "Pro".data r with
      | some (_, r2) =>
        (match wsPlus r2 with
         | some (_, r3) =>
           (match ciStrip "XL".data r3 with
            | some (_, r4) => atDollar r4
            | none => false)
         | none => false)
        || atDollar r2
      | none => false)
     ||
     (match ciStrip "XL".data r with
      | some (_, r2) =>
        (match wsPlus r2 with
         | some (_, r3) =>
           (match ciStrip "XL".data r3 with
            | some (_, r4) => atDollar r4
            | none => false)
         | none => false)
        || atDollar r2
      | none => false)
   | none => false)
  || atDollar s

/-- `re.match(r'^Pixel\s+([0-9]{1,2})(?:\s+(Pro|XL)(?:\s+XL)?)?$', model_name,
re.IGNORECASE)` as a recognizer.  `[0-9]{1,2}` is greedy: two digits are tried
first, one digit is retried if the anchored tail fails. -/
def pixelGrammarOk (model : String) : Bool :=
  match ciStrip "Pixel".data model.data with
  | none => false
  | some (_, r1) =>
    match wsPlus r1 with
    | none => false
    | some (_, r2) =>
      match r2 with
      | d1 :: r3 =>
        if d1.isDigit then
          match r3 with
          | d2 :: r4 =>
            if d2.isDigit then pixelGrammarTail r4 || pixelGrammarTail (d2 :: r4)
            else pixelGrammarTail r3
          | [] => pixelGrammarTail []
        else false
      | [] => false

/-- `find_csv_for_model` (pixel_all_only.py).  The directory is its list of
filenames; `directory.glob('*.csv')` keeps names ending in `.csv`; an
`Except.error` is the raised `ValueError`. -/
def find_csv_for_model (files : List String) (model : String) :
    Except String (Option String) :=
  if !pixelGrammarOk model then .error ("Model name not recognized: " ++ model)
  else
    let toks := pySplit (pyStrip (removePixelWord model.data))
    let cands := (files.filter (fun n => List.isSuffixOf ".csv".data n.data)).filter
      (fun n => searchAt (pixelFilePatAt toks) false n.data)
    .ok (pySorted cands).head?

/-!
`find_csv_for_iphone` (iphone_all_only.py): grammar
`^iPhone\s+([0-9]{2})(?:\s+(Pro)(?:\s+Max)?)?$` (IGNORECASE), then one of three
filename patterns depending on `is_pro_max` / `is_pro`:
  pro max: `\biphone[\s_-]*{num}[\s_-]*pro[\s_-]*max\b.*\.csv$`
  pro:     `\biphone[\s_-]*{num}[\s_-]*pro\b(?![\s_-]*max).*\.csv$`
  base:    `\biphone[\s_-]*{num}\b(?![\s_-]*(?:pro|max)).*\.csv$`
-/

/-- Tail `(?:\s+(Pro)(?:\s+Max)?)?$` of the iPhone model-name grammar; returns
`some isPro` on success. -/
def iphoneGrammarTail (s : List Char) : Option Bool :=
  match
    (match wsPlus s with
     | some (_, r) =>
       (match ciStrip "Pro".data r with
        | some (_, r2) =>
          (match wsPlus r2 with
           | some (_, r3) =>
             (match ciStrip "Max".data r3 with
              | some (_, r4) => if atDollar r4 then some true else none
              | none => none)
           | none => none)
          |>.orElse (fun _ => if atDollar r2 then some true else none)
        | none => none)
     | none => none)
  with
  | some b => some b
  | none => if atDollar s then some false else none

/-- `re.match(r'^iPhone\s+([0-9]{2})(?:\s+(Pro)(?:\s+Max)?)?$', ...)`; returns
`(num, is_pro)` on success. -/
def iphoneGrammar (model : String) : Option (List Char × Bool) :=
  match ciStrip "iPhone".data model.data with
  | none => none
  | some (_, r1) =>
    match wsPlus r1 with
    | none => none
    | some (_, r2) =>
      match r2 with
      | d1 :: d2 :: r4 =>
        if d1.isDigit && d2.isDigit then
          match iphoneGrammarTail r4 with
          | some isPro => some ([d1, d2], isPro)
          | none => none
        else none
      | _ => none

/-- Negative lookahead `(?![\s_-]*X)` for the given literals: fails when some
prefix of the class run is followed by one of them. -/
def negLookSep (lits : List (List Char)) (s : List Char) : Bool :=
  let run := (s.takeWhile isSep).length
  !((List.range (run + 1)).any (fun k => lits.any (fun l => (ciStrip l (s.drop k)).isSome)))

/-- iPhone `pro max` filename pattern at one position. -/
def iphProMaxPatAt (num : List Char) (prevWord : Bool) (s : List Char) : Bool :=
  if prevWord then false
  else
    match ciStrip "iphone".data s with
    | none => false
    | some (_, r) =>
      match sepToks [num, "pro".data, "max".data] r with
      | none => false
      | some r2 => boundaryOk 'x' r2 && csvTail r2

/-- iPhone `pro` filename pattern at one position (`\b` then `(?![\s_-]*max)`). -/
def iphProPatAt (num : List Char) (prevWord : Bool) (s : List Char) : Bool :=
  if prevWord then false
  else
    match ciStrip "iphone".data s with
    | none => false
    | some (_, r) =>
      match sepToks [num, "pro".data] r with
      | none => false
      | some r2 => boundaryOk 'o' r2 && negLookSep ["max".data] r2 && csvTail r2

/-- iPhone base filename pattern at one position (`\b` then `(?![\s_-]*(?:pro|max))`). -/
def iphBasePatAt (num : List Char) (prevWord : Bool) (s : List Char) : Bool :=
  if prevWord then false
  else
    match ciStrip "iphone".data s with
    | none => false
    | some (_, r) =>
      match sepToks [num] r with
      | none => false
      | some r2 =>
        boundaryOk (num.getLastD 'x') r2 && negLookSep ["pro".data, "max".data] r2 && csvTail r2

/-- `find_csv_for_iphone` (iphone_all_only.py). -/
def find_csv_for_iphone (files : List String) (model : String) :
    Except String (Option String) :=
  match iphoneGrammar model with
  | none => .error ("Model name not recognized: " ++ model)
  | some (num, isPro) =>
    let isProMax := List.isSuffixOf "pro max".data (lowerL (pyStrip model.data))
    let patAt :=
      if isProMax then iphProMaxPatAt num
      else if isPro then iphProPatAt num
      else iphBasePatAt num
    let cands := (files.filter (fun n => List.isSuffixOf ".csv".data n.data)).filter
      (fun n => searchAt patAt false n.data)
    .ok (pySorted cands).head?

/-!
Cleaning pipeline (`clean_and_filter_for_model` / `clean_and_filter_for_iphone`)
and the subset exporters.  A DataFrame is a list of rows with the `Title` and
`Sold Date` columns (the scripts' branch for a present `Sold Date` column is
embedded); the per-row derived columns are computed exactly as the scripts do.
-/

structure Row where
  Title : String
  SoldDate : String
deriving DecidableEq, Repr

structure PDate where
  year : Nat
  month : Nat
  day : Nat
deriving DecidableEq, Repr

def monthAbbrevs : List (List Char × Nat) :=
  [("Jan".data, 1), ("Feb".data, 2), ("Mar".data, 3), ("Apr".data, 4), ("May".data, 5),
   ("Jun".data, 6), ("Jul".data, 7), ("Aug".data, 8), ("Sep".data, 9), ("Oct".data, 10),
   ("Nov".data, 11), ("Dec".data, 12)]

def digitsToNat (ds : List Char) : Nat := ds.foldl (fun a c => 10 * a + (c.toNat - 48)) 0

/-- One attempt of the date format `"<Month-abbreviation> <day>, <year>"`. -/
def parseMonthDayYear (ab : List Char) (mo : Nat) (s : List Char) : Option PDate :=
  match ciStrip ab s with
  | none => none
  | some (_, r1) =>
    match wsPlus r1 with
    | none => none
    | some (_, r2) =>
      let ds := r2.takeWhile Char.isDigit
      if ds.length = 0 || 2 < ds.length then none
      else
        match r2.drop ds.length with
        | ',' :: r3 =>
          (match wsPlus r3 with
           | none => none
           | some (_, r4) =>
             let ys := r4.takeWhile Char.isDigit
             if ys.length = 4 && (r4.drop 4).isEmpty then
               let d := digitsToNat ds
               if 1 ≤ d && d ≤ 31 then some ⟨digitsToNat ys, mo, d⟩ else none
             else none)
        | _ => none

/-- Modelled from the spec: `pandas.to_datetime(..., errors='coerce')` is an
external-library call (pandas, not part of this repository's sources).
Following the spec's sold-date examples, the model parses the
`"<Month-abbreviation> <day>, <year>"` rendering of eBay sold dates
(e.g. `"Oct 21, 2025"`) into a calendar date, and yields `none` — pandas `NaT`,
with no exception raised — on any other text, as `errors='coerce'` does. -/
def to_datetime_coerce (s : List Char) : Option PDate :=
  monthAbbrevs.foldr
    (fun p acc =>
      match parseMonthDayYear p.1 p.2 s with
      | some d => some d
      | none => acc)
    none

/-- `str.replace(r'^\s*Sold\s+', '', regex=True)`: the anchored pattern is
removed at most once; `Sold` is case-sensitive and must be followed by
whitespace. -/
def stripSoldPrefix (s : List Char) : List Char :=
  let r := s.dropWhile Char.isWhitespace
  match csStrip "Sold".data r with
  | some rest =>
    let ws2 := rest.takeWhile Char.isWhitespace
    if ws2.isEmpty then s else rest.drop ws2.length
  | none => s

/-- `str.replace(r'\s{2,}', ' ', regex=True)`: whitespace runs of length at
least two become one space; single whitespace characters are unchanged.
Fuel (the input length) only serves structural recursion. -/
def collapse2Aux : Nat → List Char → List Char
  | 0, _ => []
  | _ + 1, [] => []
  | fuel + 1, a :: rest =>
    if a.isWhitespace then
      (match rest.takeWhile Char.isWhitespace with
       | [] => a :: collapse2Aux fuel rest
       | w => ' ' :: collapse2Aux fuel (rest.drop w.length))
    else a :: collapse2Aux fuel rest

def collapse2 (s : List Char) : List Char := collapse2Aux s.length s

/-- The `Sold Date` pipeline of pixel_all_only.py (and test.py): strip the
`Sold ` prefix, collapse double spaces, strip, `to_datetime(errors='coerce')`. -/
def sold_date_parsed_pixel (raw : String) : Option PDate :=
  to_datetime_coerce (pyStrip (collapse2 (stripSoldPrefix raw.data)))

/-- The `Sold Date` pipeline of iphone_all_only.py (no double-space collapse). -/
def sold_date_parsed_iphone (raw : String) : Option PDate :=
  to_datetime_coerce (pyStrip (stripSoldPrefix raw.data))

structure CleanRow where
  Title : String
  Storage : String
  Condition : String
  PartsOnly : Bool
  SoldDate : Option PDate
  Model : Option String
deriving DecidableEq, Repr

/-- `clean_and_filter_for_model` (pixel_all_only.py).  All derived columns are
per-row, so computing them in one pass is equivalent to the script's
column-at-a-time order; the final per-model flag column equals the `Model`
equality test the rows are filtered by (case-sensitive for pixel). -/
def clean_and_filter_for_model (df : List Row) (target : String) : List CleanRow :=
  let tmp := df.map (fun r =>
    { Title := r.Title
      Storage := extract_storage r.Title
      Condition := extract_condition r.Title
      PartsOnly := partsOnlyFlag r.Title
      SoldDate := sold_date_parsed_pixel r.SoldDate
      Model := extract_single_model_or_none r.Title : CleanRow })
  let tmp := tmp.filter (fun cr => cr.Model.isSome)
  tmp.filter (fun cr => cr.Model = some target)

/-- `clean_and_filter_for_iphone` (iphone_all_only.py); the model equality is
case-insensitive (`str.casefold()`, which on these ASCII strings is lowercasing). -/
def clean_and_filter_for_iphone (df : List Row) (target : String) : List CleanRow :=
  let tmp := df.map (fun r =>
    { Title := r.Title
      Storage := extract_storage r.Title
      Condition := extract_condition r.Title
      PartsOnly := partsOnlyFlag r.Title
      SoldDate := sold_date_parsed_iphone r.SoldDate
      Model := extract_single_iphone_model_or_none r.Title : CleanRow })
  let tmp := tmp.filter (fun cr => cr.Model.isSome)
  tmp.filter (fun cr => cr.Model.map (fun m => String.mk (lowerL m.data))
    = some (String.mk (lowerL target.data)))

/-- `f"{model_name.lower().replace(' ', '_')}_only.csv"`. -/
def outName (model : String) : String :=
  String.mk ((lowerL model.data).map (fun c => if c = ' ' then '_' else c)) ++ "_only.csv"

/-- `export_model_subset` (pixel_all_only.py).  The directory is a name (for
the diagnostic message), its `.csv` filenames, and a `read` map giving each
file's rows (`pd.read_csv`).  The first component is the returned value — an
`Except.error` being the propagated exception — where `some out` also records
that the output file `out` was written (`subset.to_csv`); `.ok none` writes
nothing.  The second component lists the printed messages. -/
def export_model_subset (dirName : String) (files : List String) (read : String → List Row)
    (model : String) : Except String (Option String) × List String :=
  match find_csv_for_model files model with
  | .error e => (.error e, [])
  | .ok none => (.ok none, ["❌ No CSV found for " ++ model ++ " in " ++ dirName])
  | .ok (some src) =>
    let subset := clean_and_filter_for_model (read src) model
    (.ok (some (outName model)),
     ["📄 Using file: " ++ src,
      "✅ " ++ model ++ ": Exported " ++ toString subset.length ++ " rows -> " ++ outName model])

/-- `export_iphone_subset` (iphone_all_only.py). -/
def export_iphone_subset (dirName : String) (files : List String) (read : String → List Row)
    (model : String) : Except String (Option String) × List String :=
  match find_csv_for_iphone files model with
  | .error e => (.error e, [])
  | .ok none => (.ok none, ["❌ No CSV found for " ++ model ++ " in " ++ dirName])
  | .ok (some src) =>
    let subset := clean_and_filter_for_iphone (read src) model
    (.ok (some (outName model)),
     ["📄 Using file: " ++ src,
      "✅ " ++ model ++ ": Exported " ++ toString subset.length ++ " rows -> " ++ outName model])

/-- The module-level `for model in MODELS: export_...(DATA_DIR, model)` loop.
There is no `try`/`except`: an exception raised inside an export aborts the
whole loop.  Returns the (model, result) pairs of the completed iterations and
the uncaught exception, if one occurred. -/
def run_batch (exportFn : String → Except String (Option String) × List String) :
    List String → List (String × Option String) × Option String
  | [] => ([], none)
  | m :: rest =>
    match (exportFn m).1 with
    | .error e => ([], some e)
    | .ok r =>
      let p := run_batch exportFn rest
      ((m, r) :: p.1, p.2)

/-!
Character-class lemmas about `Char.toLower`, `Char.isDigit`,
`Char.isWhitespace`, used throughout the proofs below.
-/

theorem char_toNat_ofNat {n : Nat} (h : n < 55296) : (Char.ofNat n).toNat = n := by
  rw [Char.ofNat, dif_pos (Or.inl h)]
  simp [Char.ofNatAux, Char.toNat, UInt32.toNat]

theorem toLower_eq_cases {c k : Char} (h : c.toLower = k) :
    c = k ∨ c = Char.ofNat (k.toNat - 32) := by
  unfold Char.toLower at h
  dsimp only at h
  split at h
  · next hc =>
      right
      have hk : (Char.ofNat (c.toNat + 32)).toNat = k.toNat := by rw [h]
      rw [char_toNat_ofNat (by omega)] at hk
      have hc' : c.toNat = k.toNat - 32 := by omega
      calc c = Char.ofNat c.toNat := (Char.ofNat_toNat c).symm
        _ = Char.ofNat (k.toNat - 32) := by rw [hc']
  · left; exact h

theorem toNat_le_of_isDigit {c : Char} (h : c.isDigit = true) :
    48 ≤ c.toNat ∧ c.toNat ≤ 57 := by
  simp only [Char.isDigit, Bool.and_eq_true, decide_eq_true_eq] at h
  exact ⟨UInt32.le_toNat_of_le (by decide) h.1, UInt32.toNat_le_of_le (by decide) h.2⟩

theorem toLower_of_isDigit {c : Char} (h : c.isDigit = true) : c.toLower = c := by
  have hb := toNat_le_of_isDigit h
  unfold Char.toLower
  dsimp only
  rw [if_neg (by omega)]

theorem isWhitespace_cases {c : Char} (h : c.isWhitespace = true) :
    c = ' ' ∨ c = '\t' ∨ c = '\r' ∨ c = '\n' := by
  simp only [Char.isWhitespace, Bool.or_eq_true, decide_eq_true_eq] at h
  tauto

theorem not_isWhitespace_of_isDigit {c : Char} (h : c.isDigit = true) :
    c.isWhitespace = false := by
  cases hw : c.isWhitespace with
  | false => rfl
  | true => rcases isWhitespace_cases hw with rfl|rfl|rfl|rfl <;> simp_all

theorem toLower_ne_of_isDigit {c k : Char} (h : c.isDigit = true) (hk : k.isDigit = false) :
    ¬ c.toLower = k := by
  rw [toLower_of_isDigit h]
  rintro rfl
  rw [h] at hk
  exact Bool.noConfusion hk

theorem not_ws_digit_of_toLower_letter {c k : Char} (h : c.toLower = k)
    (h1 : 97 ≤ k.toNat) (h2 : k.toNat ≤ 122) :
    c.isWhitespace = false ∧ c.isDigit = false := by
  have hb : 65 ≤ c.toNat ∧ c.toNat ≤ 122 := by
    rcases toLower_eq_cases h with rfl | rfl
    · exact ⟨by omega, by omega⟩
    · rw [char_toNat_ofNat (by omega)]
      omega
  refine ⟨?_, ?_⟩
  · cases hw : c.isWhitespace with
    | false => rfl
    | true =>
      rcases isWhitespace_cases hw with rfl|rfl|rfl|rfl <;> exact absurd hb (by decide)
  · cases hd : c.isDigit with
    | false => rfl
    | true => have := toNat_le_of_isDigit hd; omega

theorem eq_space_of_toLower_space {c : Char} (h : c.toLower = ' ') : c = ' ' := by
  rcases toLower_eq_cases h with rfl | rfl
  · rfl
  · exact absurd h (by decide)

/-! List helper lemmas. -/

theorem takeWhile_append_of_all {α} (p : α → Bool) (a b : List α)
    (ha : ∀ c ∈ a, p c = true) :
    (a ++ b).takeWhile p = a ++ b.takeWhile p := by
  induction a with
  | nil => simp
  | cons x xs ih =>
    simp [List.takeWhile_cons, ha x (by simp), ih (fun c hc => ha c (by simp [hc]))]

theorem dropWhile_eq_self_head {p : Char → Bool} :
    ∀ {l : List Char}, (∀ c ∈ l.take 1, p c = false) → l.dropWhile p = l
  | [], _ => rfl
  | c :: rest, h => by
    rw [List.dropWhile_cons, h c (by simp)]
    rfl

theorem pyStrip_eq_self {l : List Char}
    (h1 : ∀ c ∈ l.take 1, c.isWhitespace = false)
    (h2 : ∀ c ∈ l.reverse.take 1, c.isWhitespace = false) :
    pyStrip l = l := by
  unfold pyStrip
  rw [dropWhile_eq_self_head h1, dropWhile_eq_self_head h2, List.reverse_reverse]

theorem collapseWsAux_cons_not_ws {x : Char} {l : List Char} (b : Bool)
    (hx : x.isWhitespace = false) :
    collapseWsAux b (x :: l) = x :: collapseWsAux false l := by
  simp [collapseWsAux, hx]

theorem collapseWsAux_false_cons_ws {x : Char} {l : List Char} (hx : x.isWhitespace = true) :
    collapseWsAux false (x :: l) = ' ' :: collapseWsAux true l := by
  simp [collapseWsAux, hx]

theorem collapseWsAux_true_cons_ws {x : Char} {l : List Char} (hx : x.isWhitespace = true) :
    collapseWsAux true (x :: l) = collapseWsAux true l := by
  simp [collapseWsAux, hx]

theorem collapseWsAux_of_all_not_ws {l : List Char} (b : Bool)
    (h : ∀ c ∈ l, c.isWhitespace = false) :
    collapseWsAux b l = l := by
  induction l generalizing b with
  | nil => rfl
  | cons x xs ih =>
    rw [collapseWsAux_cons_not_ws b (h x (by simp)),
      ih false (fun c hc => h c (by simp [hc]))]

theorem collapseWsAux_append_not_ws {l r : List Char} (b : Bool)
    (hl : ∀ c ∈ l, c.isWhitespace = false) (hne : l ≠ []) :
    collapseWsAux b (l ++ r) = l ++ collapseWsAux false r := by
  induction l generalizing b with
  | nil => exact absurd rfl hne
  | cons x xs ih =>
    rw [List.cons_append, collapseWsAux_cons_not_ws b (hl x (by simp))]
    cases xs with
    | nil => simp
    | cons y ys =>
      rw [ih false (fun c hc => hl c (by simp at hc; simp [hc])) (by simp)]
      simp

theorem collapseWsAux_true_ws_run {w r : List Char}
    (hw : ∀ c ∈ w, c.isWhitespace = true)
    (hr : ∀ c ∈ r.take 1, c.isWhitespace = false) :
    collapseWsAux true (w ++ r) = collapseWsAux false r := by
  induction w with
  | nil =>
    cases r with
    | nil => rfl
    | cons c rest =>
      rw [List.nil_append, collapseWsAux_cons_not_ws true (hr c (by simp)),
        collapseWsAux_cons_not_ws false (hr c (by simp))]
  | cons x xs ih =>
    rw [List.cons_append, collapseWsAux_true_cons_ws (hw x (by simp))]
    exact ih (fun c hc => hw c (by simp [hc]))

theorem collapseWsAux_ws_run {w r : List Char}
    (hw : ∀ c ∈ w, c.isWhitespace = true) (hne : w ≠ [])
    (hr : ∀ c ∈ r.take 1, c.isWhitespace = false) :
    collapseWsAux false (w ++ r) = ' ' :: collapseWsAux false r := by
  cases w with
  | nil => exact absurd rfl hne
  | cons x xs =>
    rw [List.cons_append, collapseWsAux_false_cons_ws (hw x (by simp)),
      collapseWsAux_true_ws_run (fun c hc => hw c (by simp [hc])) hr]

/-! Claim theorems. -/

instance : DecidableEq (Except String (Option String)) := fun a b =>
  match a, b with
  | .ok x, .ok y => if h : x = y then .isTrue (by rw [h]) else .isFalse (by simp [h])
  | .error x, .error y => if h : x = y then .isTrue (by rw [h]) else .isFalse (by simp [h])
  | .ok _, .error _ => .isFalse (by simp)
  | .error _, .ok _ => .isFalse (by simp)

/-- C1: for every title in which exactly one distinct canonical model is
recognized (the scanner's captures, normalized and deduplicated in first-seen
order), the extractor returns that canonical string; with zero or two-or-more
distinct recognized models it returns `none`.  This holds for
`extract_single_model_or_none` (pixel) and
`extract_single_iphone_model_or_none` (iPhone) alike. -/
theorem C1_single_model_policy (title : String) :
    ((∀ m, pixel_recognized_models title = [m] →
        extract_single_model_or_none title = some m) ∧
     ((pixel_recognized_models title).length ≠ 1 →
        extract_single_model_or_none title = none)) ∧
    ((∀ m, iphone_recognized_models title = [m] →
        extract_single_iphone_model_or_none title = some m) ∧
     ((iphone_recognized_models title).length ≠ 1 →
        extract_single_iphone_model_or_none title = none)) := by
  refine ⟨⟨fun m h => ?_, fun h => ?_⟩, fun m h => ?_, fun h => ?_⟩ <;>
    simp [extract_single_model_or_none, extract_single_iphone_model_or_none, h]

theorem C1_witness :
    extract_single_model_or_none "Google Pixel 7 128GB" = some "Pixel 7" ∧
    extract_single_iphone_model_or_none "hello world" = none :=
  ⟨(C1_single_model_policy "Google Pixel 7 128GB").1.1 "Pixel 7" (by decide),
   (C1_single_model_policy "hello world").2.2 (by decide)⟩

/-- C2: pixel_all_only.py's `MODEL_RE` lists its suffix alternatives as
`Pro|XL|Pro XL|a`, so on a title whose only model mention is "Pixel 9 Pro XL"
(any casing) the alternative `Pro` matches first, the following `\b` holds
before the space, and the extractor returns the truncated "Pixel 9 Pro" — not
"Pixel 9 Pro XL" as the claim states.  test.py's `MODEL_RE`, which orders the
alternatives longest-first (`Pro\s+XL|Pro|XL|a`), returns "Pixel 9 Pro XL". -/
theorem C2_pro_xl_truncated :
    extract_single_model_or_none "Pixel 9 Pro XL" = some "Pixel 9 Pro" ∧
    extract_single_model_or_none "pixel 9 pro xl" = some "Pixel 9 Pro" ∧
    extract_single_model_or_none "PIXEL 9 PRO XL" = some "Pixel 9 Pro" ∧
    extract_single_model_or_none_testpy "Pixel 9 Pro XL" = some "Pixel 9 Pro XL" := by
  refine ⟨?_, ?_, ?_, ?_⟩ <;> decide

/-- C3 counterexample: the claim is universal over directories, but a filename
may contain `pixel_9_pro` and still be returned for the base request
"Pixel 9", because the pattern can match at a different position of the name
(here at the leading `pixel 9 `).  So `find_csv_for_model` does return a file
whose name contains `pixel_9_pro`. -/
theorem C3_counterexample :
    find_csv_for_model ["pixel 9 pixel_9_pro.csv"] "Pixel 9"
      = .ok (some "pixel 9 pixel_9_pro.csv") ∧
    pyIn "pixel_9_pro" "pixel 9 pixel_9_pro.csv" = true :=
  ⟨by decide, by decide⟩

/-- C3 amended: exclusivity holds per match position, not per filename.  At any
position whose text continues `pixel_9_pro`, the "Pixel 9" pattern fails (`\b`
cannot hold between `9` and `_`), and at any position whose text continues
`iphone-14-pro-max`, the "iPhone 14 Pro" pattern fails (the negative lookahead
`(?![\s_-]*max)` rejects it); consequently a directory whose only candidate is
such a file yields no match. -/
theorem C3_amended :
    (∀ (prevWord : Bool) (rest : List Char),
       pixelFilePatAt ["9".data] prevWord ("pixel_9_pro".data ++ rest) = false) ∧
    (∀ (prevWord : Bool) (rest : List Char),
       iphProPatAt "14".data prevWord ("iphone-14-pro-max".data ++ rest) = false) ∧
    find_csv_for_model ["pixel_9_pro.csv"] "Pixel 9" = .ok none ∧
    find_csv_for_iphone ["iphone-14-pro-max.csv"] "iPhone 14 Pro" = .ok none := by
  refine ⟨fun pw rest => ?_, fun pw rest => ?_, by decide, by decide⟩ <;> cases pw <;> rfl

/-- C4 counterexample: with an unrecognized model name in the batch, the raised
`ValueError` is uncaught by the module-level loop, so the batch aborts: the
processed list is empty and the later model "Pixel 9" is never processed,
contradicting the claim that the remaining models are still processed. -/
theorem C4_counterexample :
    run_batch (export_model_subset "dir" ["pixel_9.csv"] (fun _ => []))
        ["Pixel Bogus", "Pixel 9"]
      = ([], some "Model name not recognized: Pixel Bogus") := by
  decide

/-- C4 amended: a model name the grammar does not recognize makes
`find_csv_for_model` raise `ValueError("Model name not recognized: ...")`, and
the module-level loop — which has no exception handling — aborts the entire
batch at that model: nothing is processed past the beginning of the failing
iteration. -/
theorem C4_amended (dirName : String) (files : List String) (read : String → List Row)
    (m : String) (rest : List String) (h : pixelGrammarOk m = false) :
    find_csv_for_model files m = .error ("Model name not recognized: " ++ m) ∧
    run_batch (export_model_subset dirName files read) (m :: rest)
      = ([], some ("Model name not recognized: " ++ m)) := by
  have h1 : find_csv_for_model files m = .error ("Model name not recognized: " ++ m) := by
    simp [find_csv_for_model, h]
  exact ⟨h1, by simp [run_batch, export_model_subset, h1]⟩

theorem C4_witness :
    find_csv_for_model ["a.csv"] "Pixel Bogus"
      = .error "Model name not recognized: Pixel Bogus" ∧
    run_batch (export_model_subset "d" ["a.csv"] (fun _ => [])) ["Pixel Bogus", "Pixel 10"]
      = ([], some "Model name not recognized: Pixel Bogus") :=
  C4_amended "d" ["a.csv"] (fun _ => []) "Pixel Bogus" ["Pixel 10"] (by decide)

/-- C5: when the resolver finds no source CSV, the export prints the
diagnostic, returns `None`, raises nothing and writes nothing (the result
`ok none` carries no output file), and the batch loop continues with the
remaining models exactly as if the failing model were absent.  Both for the
pixel and the iPhone script. -/
theorem C5_skip_and_continue (dirName : String) (files : List String)
    (read : String → List Row) (m : String) (rest : List String)
    (hp : find_csv_for_model files m = .ok none)
    (m2 : String) (rest2 : List String)
    (hi : find_csv_for_iphone files m2 = .ok none) :
    (export_model_subset dirName files read m
        = (.ok none, ["❌ No CSV found for " ++ m ++ " in " ++ dirName]) ∧
      run_batch (export_model_subset dirName files read) (m :: rest)
        = ((m, none) :: (run_batch (export_model_subset dirName files read) rest).1,
           (run_batch (export_model_subset dirName files read) rest).2)) ∧
    (export_iphone_subset dirName files read m2
        = (.ok none, ["❌ No CSV found for " ++ m2 ++ " in " ++ dirName]) ∧
      run_batch (export_iphone_subset dirName files read) (m2 :: rest2)
        = ((m2, none) :: (run_batch (export_iphone_subset dirName files read) rest2).1,
           (run_batch (export_iphone_subset dirName files read) rest2).2)) := by
  refine ⟨⟨?_, ?_⟩, ?_, ?_⟩ <;>
    simp [export_model_subset, export_iphone_subset, run_batch, hp, hi]

theorem C5_witness :
    (export_model_subset "d" [] (fun _ => []) "Pixel 9"
        = (.ok none, ["❌ No CSV found for Pixel 9 in d"]) ∧
      run_batch (export_model_subset "d" [] (fun _ => [])) ["Pixel 9", "Pixel 7"]
        = ([("Pixel 9", none), ("Pixel 7", none)], none)) ∧
    export_iphone_subset "d" [] (fun _ => []) "iPhone 14"
        = (.ok none, ["❌ No CSV found for iPhone 14 in d"]) := by
  have h := C5_skip_and_continue "d" [] (fun _ => []) "Pixel 9" ["Pixel 7"] (by decide)
    "iPhone 14" [] (by decide)
  refine ⟨⟨h.1.1, ?_⟩, h.2.1⟩
  rw [h.1.2]
  decide

theorem csStartsWith_iff (n : List Char) : ∀ h : List Char, csStartsWith n h = true ↔ n <+: h := by
  induction n with
  | nil => intro h; simp [csStartsWith, csStrip]
  | cons p ps ih =>
    intro h
    cases h with
    | nil => simp [csStartsWith, csStrip]
    | cons c cs =>
      simp only [csStartsWith, csStrip, List.cons_prefix_cons]
      by_cases hcp : c = p
      · subst hcp
        simpa [csStartsWith] using ih cs
      · simp only [if_neg hcp, Option.isSome_none, Bool.false_eq_true, false_iff, not_and]
        intro hh
        exact absurd hh.symm hcp

theorem pyIn_go_iff (n : List Char) : ∀ h : List Char, pyIn.go n h = true ↔ n <:+: h := by
  intro h
  induction h with
  | nil =>
    simp [pyIn.go, csStartsWith_iff]
  | cons c cs ih =>
    simp [pyIn.go, csStartsWith_iff, ih, List.infix_cons_iff]

theorem pyIn_iff (needle hay : String) : pyIn needle hay = true ↔ needle.data <:+: hay.data :=
  pyIn_go_iff needle.data hay.data

/-- C6: `extract_condition` is the fixed, case-sensitive priority chain on
literal substring containment: "Excellent" wins, else "Very" gives
"Very Good", else "Good", else "Unknown"; in particular a title containing
both "Excellent" and "Good" yields "Excellent". -/
theorem C6_condition_priority (title : String) :
    ("Excellent".data <:+: title.data → extract_condition title = "Excellent") ∧
    (¬ "Excellent".data <:+: title.data → "Very".data <:+: title.data →
        extract_condition title = "Very Good") ∧
    (¬ "Excellent".data <:+: title.data → ¬ "Very".data <:+: title.data →
        "Good".data <:+: title.data → extract_condition title = "Good") ∧
    (¬ "Excellent".data <:+: title.data → ¬ "Very".data <:+: title.data →
        ¬ "Good".data <:+: title.data → extract_condition title = "Unknown") := by
  have e := pyIn_iff "Excellent" title
  have v := pyIn_iff "Very" title
  have g := pyIn_iff "Good" title
  exact ⟨fun hE => by simp [extract_condition, e, hE],
    fun hE hV => by simp [extract_condition, e, v, hE, hV],
    fun hE hV hG => by simp [extract_condition, e, v, g, hE, hV, hG],
    fun hE hV hG => by simp [extract_condition, e, v, g, hE, hV, hG]⟩

theorem C6_witness : extract_condition "Excellent cond Good battery" = "Excellent" :=
  (C6_condition_priority "Excellent cond Good battery").1 ⟨[], " cond Good battery".data, rfl⟩

theorem matchStorageAt_nil : matchStorageAt [] = none := rfl

theorem searchStorage_none_iff (t : List Char) :
    searchStorage t = none ↔ ∀ i, matchStorageAt (t.drop i) = none := by
  induction t with
  | nil => simp [searchStorage, matchStorageAt_nil]
  | cons c rest ih =>
    cases hm : matchStorageAt (c :: rest) with
    | some d =>
      simp only [searchStorage, hm]
      constructor
      · intro h; exact absurd h (by simp)
      · intro h
        have h0 := h 0
        rw [List.drop_zero] at h0
        rw [h0] at hm
        exact absurd hm (by simp)
    | none =>
      simp only [searchStorage, hm]
      rw [ih]
      constructor
      · intro h i
        cases i with
        | zero => simpa using hm
        | succ n => simpa [List.drop_succ_cons] using h n
      · intro h n
        simpa [List.drop_succ_cons] using h (n + 1)

theorem searchStorage_first (t : List Char) (i : Nat) (d : List Char)
    (hlt : ∀ j, j < i → matchStorageAt (t.drop j) = none)
    (hi : matchStorageAt (t.drop i) = some d) :
    searchStorage t = some d := by
  induction t generalizing i with
  | nil =>
    rw [List.drop_nil] at hi
    exact absurd hi (by simp [matchStorageAt_nil])
  | cons c rest ih =>
    cases i with
    | zero =>
      rw [List.drop_zero] at hi
      simp [searchStorage, hi]
    | succ n =>
      have h0 := hlt 0 (Nat.succ_pos n)
      rw [List.drop_zero] at h0
      rw [List.drop_succ_cons] at hi
      simp only [searchStorage, h0]
      exact ih n (fun j hj => by
        have hj1 := hlt (j + 1) (Nat.succ_lt_succ hj)
        rwa [List.drop_succ_cons] at hj1) hi

theorem mk_gb_ne_unknown (d : List Char) : String.mk d ++ " GB" ≠ "Unknown" := by
  intro h
  have hd : d ++ " GB".data = "Unknown".data := by
    have h2 := congrArg String.data h
    simpa using h2
  have h3 := congrArg List.getLast? hd
  rw [show d ++ " GB".data = (d ++ [' ', 'G']) ++ ['B'] by simp] at h3
  rw [List.getLast?_concat] at h3
  exact absurd h3 (by decide)

/-- C7: `extract_storage` returns `"<digits> GB"` for the digits of the
leftmost position at which the `(\d{2,4})\s?GB\b` match attempt succeeds
(greedy digit count embedded in `matchStorageAt`), and `"Unknown"` exactly
when no position matches. -/
theorem C7_storage_leftmost (title : String) :
    (extract_storage title = "Unknown" ↔ ∀ i, matchStorageAt (title.data.drop i) = none) ∧
    (∀ i d, (∀ j, j < i → matchStorageAt (title.data.drop j) = none) →
      matchStorageAt (title.data.drop i) = some d →
      extract_storage title = String.mk d ++ " GB") := by
  constructor
  · cases hs : searchStorage title.data with
    | none =>
      simp only [extract_storage, hs]
      simpa using (searchStorage_none_iff title.data).mp hs
    | some d =>
      simp only [extract_storage, hs]
      constructor
      · intro h; exact absurd h (mk_gb_ne_unknown d)
      · intro h
        have := (searchStorage_none_iff title.data).mpr h
        rw [hs] at this
        exact absurd this (by simp)
  · intro i d hlt hi
    simp only [extract_storage, searchStorage_first title.data i d hlt hi]

theorem C7_witness : extract_storage "Apple iPhone 13 128GB Unlocked" = "128 GB" :=
  ((C7_storage_leftmost "Apple iPhone 13 128GB Unlocked").2 16 "128".data
    (by decide) (by decide)).trans (by decide)

/-- C8: the sold-date pipelines parse `"Sold Oct 21, 2025"` to 2025-10-21 and
coerce unparseable text (e.g. `"Sold SomeGarbage"`) to an absent date without
raising; an absent date does not prevent the row from being exported — any row
whose title yields the requested model is exported with `SoldDate` set to
whatever the parse produced. -/
theorem C8_sold_date (title raw target : String)
    (h : extract_single_model_or_none title = some target)
    (title2 raw2 target2 : String)
    (h2 : extract_single_iphone_model_or_none title2 = some target2) :
    (sold_date_parsed_pixel "Sold Oct 21, 2025" = some ⟨2025, 10, 21⟩ ∧
     sold_date_parsed_pixel "Sold SomeGarbage" = none ∧
     sold_date_parsed_iphone "Sold Oct 21, 2025" = some ⟨2025, 10, 21⟩ ∧
     sold_date_parsed_iphone "Sold SomeGarbage" = none) ∧
    clean_and_filter_for_model [⟨title, raw⟩] target =
      [⟨title, extract_storage title, extract_condition title, partsOnlyFlag title,
        sold_date_parsed_pixel raw, some target⟩] ∧
    clean_and_filter_for_iphone [⟨title2, raw2⟩] target2 =
      [⟨title2, extract_storage title2, extract_condition title2, partsOnlyFlag title2,
        sold_date_parsed_iphone raw2, some target2⟩] := by
  refine ⟨⟨by decide, by decide, by decide, by decide⟩, ?_, ?_⟩
  · simp [clean_and_filter_for_model, h]
  · simp [clean_and_filter_for_iphone, h2]

theorem C8_witness :
    clean_and_filter_for_model [⟨"Google Pixel 7 Excellent 128GB", "Sold SomeGarbage"⟩] "Pixel 7" =
      [⟨"Google Pixel 7 Excellent 128GB", "128 GB", "Excellent", false, none, some "Pixel 7"⟩] := by
  have h := C8_sold_date "Google Pixel 7 Excellent 128GB" "Sold SomeGarbage" "Pixel 7" (by decide)
    "Apple iPhone 13" "Sold Oct 21, 2025" "iPhone 13" (by decide)
  rw [h.2.1]
  decide

theorem digit_run_head {ds : List Char} (hd : ∀ c ∈ ds, c.isDigit = true) :
    (ds ++ "GB".data).takeWhile Char.isDigit = ds := by
  rw [takeWhile_append_of_all _ ds "GB".data hd]
  simp

theorem storageK_of_digit {s : List Char} {k : Nat} {c : Char} {r : List Char}
    (hdrop : s.drop k = c :: r) (hc : c.isDigit = true) : storageK s k = false := by
  have hne : ¬ c.toLower = 'g' := toLower_ne_of_isDigit hc (by decide)
  simp [storageK, hdrop, gbB, ciStrip, not_isWhitespace_of_isDigit hc, hne]

theorem drop_digit_head {ds : List Char} (hd : ∀ c ∈ ds, c.isDigit = true) {k : Nat}
    (hk : k < ds.length) :
    ∃ c r, (ds ++ "GB".data).drop k = c :: r ∧ c.isDigit = true := by
  rw [List.drop_append_of_le_length (Nat.le_of_lt hk)]
  cases hds : ds.drop k with
  | nil =>
    have := List.length_drop k ds
    rw [hds] at this
    simp at this
    omega
  | cons c r =>
    have hcm : c ∈ ds := List.mem_of_mem_drop (by rw [hds]; exact List.mem_cons_self c r)
    exact ⟨c, r ++ "GB".data, by simp [hds], hd c hcm⟩

theorem matchStorageAt_long_digits {ds : List Char} (hd : ∀ c ∈ ds, c.isDigit = true)
    (h5 : 5 ≤ ds.length) : matchStorageAt (ds ++ "GB".data) = none := by
  unfold matchStorageAt
  rw [digit_run_head hd, show min ds.length 4 = 4 from by omega]
  obtain ⟨c4, r4, hd4, hc4⟩ := drop_digit_head hd (show 4 < ds.length by omega)
  obtain ⟨c3, r3, hd3, hc3⟩ := drop_digit_head hd (show 3 < ds.length by omega)
  obtain ⟨c2, r2, hd2, hc2⟩ := drop_digit_head hd (show 2 < ds.length by omega)
  simp [storageTryK, storageK_of_digit hd4 hc4, storageK_of_digit hd3 hc3,
    storageK_of_digit hd2 hc2]

theorem matchStorageAt_four_digits {ds : List Char} (hd : ∀ c ∈ ds, c.isDigit = true)
    (h4 : ds.length = 4) : matchStorageAt (ds ++ "GB".data) = some ds := by
  unfold matchStorageAt
  rw [digit_run_head hd, h4]
  have hdrop : (ds ++ "GB".data).drop 4 = "GB".data := by
    rw [List.drop_append_of_le_length (by omega)]
    rw [List.drop_eq_nil_of_le (by omega)]
    rfl
  have hk : storageK (ds ++ "GB".data) 4 = true := by
    rw [storageK, hdrop]
    decide
  have htake : (ds ++ "GB".data).take 4 = ds := by
    rw [← h4]
    exact List.take_left ds "GB".data
  simp [storageTryK, hk, htake]

theorem searchStorage_digits {ds : List Char} (hd : ∀ c ∈ ds, c.isDigit = true)
    (h4 : 4 ≤ ds.length) :
    searchStorage (ds ++ "GB".data) = some (ds.drop (ds.length - 4)) := by
  induction ds with
  | nil => simp at h4
  | cons c cs ih =>
    by_cases hlen : (c :: cs).length = 4
    · have hm := matchStorageAt_four_digits hd hlen
      rw [List.cons_append] at hm ⊢
      simp only [searchStorage, hm, hlen]
      simp
    · have h5 : 5 ≤ (c :: cs).length := by
        simp only [List.length_cons] at hlen h4 ⊢
        omega
      have hm := matchStorageAt_long_digits hd h5
      rw [List.cons_append] at hm ⊢
      simp only [searchStorage, hm]
      have hcs : 4 ≤ cs.length := by
        simp only [List.length_cons] at h5
        omega
      rw [ih (fun x hx => hd x (by simp [hx])) hcs]
      have harith : (c :: cs).length - 4 = (cs.length - 4) + 1 := by
        simp only [List.length_cons]
        simp only [List.length_cons] at h5
        omega
      rw [harith, List.drop_succ_cons]

/-- C10: `extract_storage` requires no word boundary before the digits, so on
a title that is a run of five or more digits followed by `GB`, every earlier
start fails (another digit follows where `GB` is required) and the first
success takes the trailing four digits: the result is `"<last four digits> GB"`,
not `"Unknown"` and not the full number. -/
theorem C10_storage_five_digits (ds : List Char) (h5 : 5 ≤ ds.length)
    (hd : ∀ c ∈ ds, c.isDigit = true) :
    extract_storage (String.mk (ds ++ "GB".data))
      = String.mk (ds.drop (ds.length - 4)) ++ " GB" := by
  unfold extract_storage
  rw [show (String.mk (ds ++ "GB".data)).data = ds ++ "GB".data from rfl]
  rw [searchStorage_digits hd (by omega)]

theorem C10_witness : extract_storage "12345GB" = "2345 GB" := by
  have h := C10_storage_five_digits "12345".data (by decide) (by decide)
  rw [show String.mk ("12345".data ++ "GB".data) = "12345GB" from by decide] at h
  rw [h]
  decide

/-! C9 infrastructure: shape of the scanner's captures. -/

def ciR (pc c : Char) : Prop := c.toLower = pc.toLower

theorem ciStrip_sound : ∀ {p s co r : List Char},
    ciStrip p s = some (co, r) → s = co ++ r ∧ List.Forall₂ ciR p co := by
  intro p
  induction p with
  | nil =>
    intro s co r h
    simp [ciStrip] at h
    rcases h with ⟨rfl, rfl⟩
    exact ⟨rfl, List.Forall₂.nil⟩
  | cons pc ps ih =>
    intro s co r h
    cases s with
    | nil => simp [ciStrip] at h
    | cons c cs =>
      simp only [ciStrip] at h
      split at h
      · next hlow =>
        cases hrec : ciStrip ps cs with
        | none => rw [hrec] at h; simp at h
        | some pr =>
          rw [hrec] at h
          obtain ⟨co2, r2⟩ := pr
          simp at h
          obtain ⟨rfl, rfl⟩ := h
          obtain ⟨hs, hf⟩ := ih hrec
          exact ⟨by simp [hs], List.Forall₂.cons hlow hf⟩
      · simp at h

theorem mem_takeWhile_holds {p : Char → Bool} :
    ∀ {l : List Char} {c : Char}, c ∈ l.takeWhile p → p c = true := by
  intro l
  induction l with
  | nil => intro c h; simp [List.takeWhile] at h
  | cons x xs ih =>
    intro c h
    rw [List.takeWhile_cons] at h
    split at h
    · next hx =>
      rcases List.mem_cons.mp h with rfl | hm
      · exact hx
      · exact ih hm
    · simp at h

theorem drop_takeWhile_len {p : Char → Bool} :
    ∀ l : List Char, l.drop (l.takeWhile p).length = l.dropWhile p := by
  intro l
  induction l with
  | nil => rfl
  | cons x xs ih =>
    rw [List.takeWhile_cons, List.dropWhile_cons]
    split
    · simpa using ih
    · rfl

theorem wsPlus_sound {s w r : List Char} (h : wsPlus s = some (w, r)) :
    w ≠ [] ∧ (∀ c ∈ w, c.isWhitespace = true) ∧ s = w ++ r := by
  simp only [wsPlus] at h
  split at h
  · simp at h
  · next hne =>
    simp at h
    obtain ⟨rfl, rfl⟩ := h
    refine ⟨by simpa [List.isEmpty_iff] using hne, fun c hc => mem_takeWhile_holds hc, ?_⟩
    rw [drop_takeWhile_len]
    exact (List.takeWhile_append_dropWhile _ _).symm

theorem firstBoundaryOk_mem {num : List Char} :
    ∀ {cands : List (List Char × List Char)} {co r},
      firstBoundaryOk num cands = some (co, r) → (co, r) ∈ cands := by
  intro cands
  induction cands with
  | nil => intro co r h; simp [firstBoundaryOk] at h
  | cons p ps ih =>
    intro co r h
    obtain ⟨co1, r1⟩ := p
    simp only [firstBoundaryOk] at h
    split at h
    · simp at h
      obtain ⟨rfl, rfl⟩ := h
      exact List.mem_cons_self _ _
    · exact List.mem_cons_of_mem _ (ih h)

theorem altCandidates_cases {alts : List (List RAtom)} {s co r : List Char}
    (h : (co, r) ∈ altCandidates alts s) :
    co = [] ∨
    (∃ a ∈ alts, ∃ s₁ r₁, matchAtoms a s₁ = some (co, r₁)) ∨
    (∃ a ∈ alts, ∃ w co₁ s₁ r₁, co = w :: co₁ ∧ w.isWhitespace = true ∧
      matchAtoms a s₁ = some (co₁, r₁)) := by
  simp only [altCandidates] at h
  rw [List.mem_append, List.mem_append] at h
  rcases h with (h | h) | h
  · right; right
    split at h
    · next c rest =>
      split at h
      · next hws =>
        rw [List.mem_filterMap] at h
        obtain ⟨a, ha, hm⟩ := h
        cases hma : matchAtoms a rest with
        | none => rw [hma] at hm; simp at hm
        | some pr =>
          rw [hma] at hm
          obtain ⟨co1, r1⟩ := pr
          simp at hm
          obtain ⟨rfl, rfl⟩ := hm
          exact ⟨a, ha, c, co1, rest, r1, rfl, hws, hma⟩
      · simp at h
    · simp at h
  · right; left
    rw [List.mem_filterMap] at h
    obtain ⟨a, ha, hm⟩ := h
    exact ⟨a, ha, s, r, hm⟩
  · left
    simp at h
    exact h.1

theorem matchAtoms_single_lit {p s co r : List Char}
    (h : matchAtoms [.lit p] s = some (co, r)) : List.Forall₂ ciR p co := by
  simp only [matchAtoms] at h
  cases hc : ciStrip p s with
  | none => rw [hc] at h; simp at h
  | some pr =>
    rw [hc] at h
    obtain ⟨co1, r1⟩ := pr
    simp at h
    obtain ⟨rfl, rfl⟩ := h
    simpa using (ciStrip_sound hc).2

theorem matchAtoms_lit_ws_lit {p1 p2 s co r : List Char}
    (h : matchAtoms [.lit p1, .ws1, .lit p2] s = some (co, r)) :
    ∃ c1 w c2, co = c1 ++ w ++ c2 ∧ List.Forall₂ ciR p1 c1 ∧ w ≠ [] ∧
      (∀ c ∈ w, c.isWhitespace = true) ∧ List.Forall₂ ciR p2 c2 := by
  simp only [matchAtoms] at h
  cases hc : ciStrip p1 s with
  | none => rw [hc] at h; simp at h
  | some pr =>
    rw [hc] at h
    obtain ⟨c1, r1⟩ := pr
    dsimp only at h
    cases hw : wsPlus r1 with
    | none => rw [hw] at h; simp at h
    | some pw =>
      rw [hw] at h
      obtain ⟨w, r2⟩ := pw
      dsimp only at h
      cases hc2 : ciStrip p2 r2 with
      | none => rw [hc2] at h; simp at h
      | some pr2 =>
        rw [hc2] at h
        obtain ⟨c2, r3⟩ := pr2
        simp at h
        obtain ⟨rfl, rfl⟩ := h
        obtain ⟨hw1, hw2, _⟩ := wsPlus_sound hw
        refine ⟨c1, w, c2, by simp, (ciStrip_sound hc).2, hw1, hw2, (ciStrip_sound hc2).2⟩

/-- Shape of the number part of a scanner capture: one nonzero digit,
optionally followed by a second digit. -/
def NumOk (num : List Char) : Prop :=
  (∃ d1, num = [d1] ∧ d1.isDigit = true ∧ d1 ≠ '0') ∨
  (∃ d1 d2, num = [d1, d2] ∧ d1.isDigit = true ∧ d1 ≠ '0' ∧ d2.isDigit = true)

theorem sufPart_shape {alts : List (List RAtom)} {num s : List Char} {fiveG : Bool}
    {tok r : List Char} (h : sufPart alts num s fiveG = some (tok, r)) :
    ∃ co r₂, tok = num ++ co ∧ (co, r₂) ∈ altCandidates alts s := by
  simp only [sufPart] at h
  cases hf : firstBoundaryOk num (altCandidates alts s) with
  | none => rw [hf] at h; simp at h
  | some pr =>
    rw [hf] at h
    obtain ⟨co, r0⟩ := pr
    simp at h
    exact ⟨co, r0, h.1.symm, firstBoundaryOk_mem hf⟩

theorem matchFamilyCore_shape {family : List Char} {alts : List (List RAtom)} {fiveG : Bool}
    {s tok r : List Char} (H : matchFamilyCore family alts fiveG s = some (tok, r)) :
    ∃ num co s₂ r₂, NumOk num ∧ tok = num ++ co ∧ (co, r₂) ∈ altCandidates alts s₂ := by
  unfold matchFamilyCore at H
  cases hcs : ciStrip family s with
  | none => rw [hcs] at H; exact absurd H (by simp)
  | some pr1 =>
    rw [hcs] at H
    obtain ⟨x1, r1⟩ := pr1
    dsimp only at H
    cases hws : wsPlus r1 with
    | none => rw [hws] at H; exact absurd H (by simp)
    | some pr2 =>
      rw [hws] at H
      obtain ⟨x2, r2⟩ := pr2
      dsimp only at H
      cases r2 with
      | nil => exact absurd H (by simp)
      | cons d1 r3 =>
        dsimp only at H
        by_cases hd1 : (d1.isDigit && decide (d1 ≠ '0')) = true
        · rw [if_pos hd1] at H
          rw [Bool.and_eq_true, decide_eq_true_eq] at hd1
          cases r3 with
          | nil =>
            obtain ⟨co, r2, htok, hmem⟩ := sufPart_shape H
            exact ⟨[d1], co, [], r2, Or.inl ⟨d1, rfl, hd1.1, hd1.2⟩, htok, hmem⟩
          | cons d2 r4 =>
            dsimp only at H
            by_cases hd2 : d2.isDigit = true
            · rw [if_pos hd2] at H
              cases hsp : sufPart alts [d1, d2] r4 fiveG with
              | some res =>
                rw [hsp] at H
                dsimp only at H
                rw [Option.some_inj] at H
                subst H
                obtain ⟨co, r2, htok, hmem⟩ := sufPart_shape hsp
                exact ⟨[d1, d2], co, r4, r2, Or.inr ⟨d1, d2, rfl, hd1.1, hd1.2, hd2⟩,
                  htok, hmem⟩
              | none =>
                rw [hsp] at H
                dsimp only at H
                obtain ⟨co, r2, htok, hmem⟩ := sufPart_shape H
                exact ⟨[d1], co, d2 :: r4, r2, Or.inl ⟨d1, rfl, hd1.1, hd1.2⟩, htok, hmem⟩
            · rw [if_neg hd2] at H
              obtain ⟨co, r2, htok, hmem⟩ := sufPart_shape H
              exact ⟨[d1], co, d2 :: r4, r2, Or.inl ⟨d1, rfl, hd1.1, hd1.2⟩, htok, hmem⟩
        · rw [if_neg hd1] at H
          exact absurd H (by simp)

theorem matchFamilyAt_to_core {brand family : List Char} {alts : List (List RAtom)}
    {fiveG : Bool} {s tok r : List Char}
    (H : matchFamilyAt brand family alts fiveG s = some (tok, r)) :
    ∃ s₂ r₂, matchFamilyCore family alts fiveG s₂ = some (tok, r₂) := by
  unfold matchFamilyAt at H
  cases hcs : ciStrip brand s with
  | none =>
    rw [hcs] at H
    dsimp only at H
    exact ⟨s, r, H⟩
  | some pr1 =>
    rw [hcs] at H
    obtain ⟨x1, r1⟩ := pr1
    dsimp only at H
    cases hws : wsPlus r1 with
    | none =>
      rw [hws] at H
      dsimp only at H
      exact ⟨s, r, H⟩
    | some pr2 =>
      rw [hws] at H
      obtain ⟨x2, r2⟩ := pr2
      dsimp only at H
      cases hcore : matchFamilyCore family alts fiveG r2 with
      | none =>
        rw [hcore] at H
        dsimp only at H
        exact ⟨s, r, H⟩
      | some res =>
        rw [hcore] at H
        dsimp only at H
        rw [Option.some_inj] at H
        subst H
        exact ⟨r2, r, hcore⟩

theorem scanAux_mem {brand family : List Char} {alts : List (List RAtom)} {fiveG : Bool} :
    ∀ {fuel : Nat} {s tok : List Char},
      tok ∈ scanAux brand family alts fiveG fuel s →
      ∃ s' r', matchFamilyAt brand family alts fiveG s' = some (tok, r') := by
  intro fuel
  induction fuel with
  | zero => intro s tok h; simp [scanAux] at h
  | succ n ih =>
    intro s tok h
    cases s with
    | nil => simp [scanAux] at h
    | cons c rest =>
      simp only [scanAux] at h
      split at h
      · next cap r hm =>
        rcases List.mem_cons.mp h with rfl | hmem
        · exact ⟨c :: rest, r, hm⟩
        · exact ih hmem
      · exact ih h

theorem normParse_numPart {alts : List (List RAtom)} {num rest : List Char} (hnum : NumOk num)
    (hrest1 : ∀ c ∈ rest.take 1, c.isDigit = false)
    {osuf : Option (List Char)} (htail : normTail alts rest = some osuf) :
    normParse alts (num ++ rest) = some (num, osuf) := by
  rcases hnum with ⟨d1, rfl, hd1, hd1'⟩ | ⟨d1, d2, rfl, hd1, hd1', hd2⟩
  · cases rest with
    | nil => simp [normParse, hd1, hd1', htail]
    | cons r rs =>
      have hr : r.isDigit = false := hrest1 r (by simp)
      simp [normParse, hd1, hd1', hr, htail]
  · simp [normParse, hd1, hd1', hd2, htail]

theorem strip_collapse_numPart {num rest : List Char} (hnum : NumOk num)
    (hlast : ∀ c ∈ (num ++ rest).reverse.take 1, c.isWhitespace = false) :
    collapseWs (pyStrip (num ++ rest)) = num ++ collapseWsAux false rest := by
  have hnumws : ∀ c ∈ num, c.isWhitespace = false := by
    rcases hnum with ⟨d1, rfl, hd1, _⟩ | ⟨d1, d2, rfl, hd1, _, hd2⟩
    · intro c hc
      simp at hc
      subst hc
      exact not_isWhitespace_of_isDigit hd1
    · intro c hc
      simp at hc
      rcases hc with rfl | rfl
      · exact not_isWhitespace_of_isDigit hd1
      · exact not_isWhitespace_of_isDigit hd2
  have hne : num ≠ [] := by
    rcases hnum with ⟨d1, rfl, _, _⟩ | ⟨d1, d2, rfl, _, _, _⟩ <;> simp
  have hhead : ∀ c ∈ (num ++ rest).take 1, c.isWhitespace = false := by
    rcases hnum with ⟨d1, rfl, hd1, _⟩ | ⟨d1, d2, rfl, hd1, _, _⟩ <;>
      · intro c hc
        simp at hc
        subst hc
        exact not_isWhitespace_of_isDigit hd1
  rw [pyStrip_eq_self hhead hlast, collapseWs, collapseWsAux_append_not_ws false hnumws hne]

theorem reverse_take1_append {A B : List Char} (hB : B ≠ []) :
    (A ++ B).reverse.take 1 = B.reverse.take 1 := by
  rw [List.reverse_append]
  cases hBr : B.reverse with
  | nil =>
    exact absurd (by simpa using congrArg List.reverse hBr) hB
  | cons x xs => simp

theorem pixelRender_key {num : List Char} {suf : String}
    (h : suf = "" ∨ suf = "pro" ∨ suf = "xl" ∨ suf = "pro xl" ∨ suf = "a") :
    pixelRender num suf ≠ none := by
  rcases h with rfl | rfl | rfl | rfl | rfl <;> simp [pixelRender]

theorem iphoneRender_key {num : List Char} {suf : String}
    (h : suf = "" ∨ suf = "pro max" ∨ suf = "pro" ∨ suf = "plus" ∨ suf = "mini" ∨ suf = "max") :
    iphoneRender num suf ≠ none := by
  rcases h with rfl | rfl | rfl | rfl | rfl | rfl <;> simp [iphoneRender]

theorem pixel_norm_generic {num sep co co' : List Char} (hnum : NumOk num)
    (hsep : sep = [] ∨ ∃ w, sep = [w] ∧ w.isWhitespace = true)
    (hcoll : collapseWsAux false co = co')
    (hcows : ∀ c ∈ co.take 1, c.isWhitespace = false)
    (hcodg : ∀ c ∈ co'.take 1, c.isDigit = false)
    (hlastco : ∀ c ∈ co.reverse.take 1, c.isWhitespace = false)
    (hne : co ≠ [])
    (htail0 : normTail pixelAltsAll co' = some (some co'))
    (htail1 : normTail pixelAltsAll (' ' :: co') = some (some co'))
    (hkey : pixelRender num (String.mk (lowerL (co'.reverse.reverse))) ≠ none) :
    normalize_model_token (num ++ (sep ++ co)) ≠ none := by
  rw [List.reverse_reverse] at hkey
  rcases hsep with rfl | ⟨w, rfl, hw⟩
  · have hlast : ∀ c ∈ (num ++ ([] ++ co)).reverse.take 1, c.isWhitespace = false := by
      rw [List.nil_append, reverse_take1_append hne]
      exact hlastco
    unfold normalize_model_token
    rw [strip_collapse_numPart hnum hlast]
    rw [List.nil_append, hcoll]
    dsimp only
    rw [normParse_numPart hnum hcodg htail0]
    simpa using hkey
  · have hlast : ∀ c ∈ (num ++ ([w] ++ co)).reverse.take 1, c.isWhitespace = false := by
      rw [show num ++ ([w] ++ co) = (num ++ [w]) ++ co by simp,
        reverse_take1_append hne]
      exact hlastco
    unfold normalize_model_token
    rw [strip_collapse_numPart hnum hlast]
    rw [collapseWsAux_ws_run (by intro c hc; simp at hc; subst hc; exact hw) (by simp) hcows,
      hcoll]
    dsimp only
    rw [normParse_numPart hnum (by intro c hc; simp at hc; subst hc; decide) htail1]
    simpa using hkey

theorem iphone_norm_generic {num sep co co' : List Char} (hnum : NumOk num)
    (hsep : sep = [] ∨ ∃ w, sep = [w] ∧ w.isWhitespace = true)
    (hcoll : collapseWsAux false co = co')
    (hcows : ∀ c ∈ co.take 1, c.isWhitespace = false)
    (hcodg : ∀ c ∈ co'.take 1, c.isDigit = false)
    (hco'ws : ∀ c ∈ co'.take 1, c.isWhitespace = false)
    (hlastco : ∀ c ∈ co.reverse.take 1, c.isWhitespace = false)
    (hlastco' : ∀ c ∈ co'.reverse.take 1, c.isWhitespace = false)
    (hne : co ≠ [])
    (htail0 : normTail iphoneAlts co' = some (some co'))
    (htail1 : normTail iphoneAlts (' ' :: co') = some (some co'))
    (hkey : iphoneRender num (String.mk (lowerL co')) ≠ none) :
    normalize_iphone_token (num ++ (sep ++ co)) ≠ none := by
  have hstrip : pyStrip co' = co' := pyStrip_eq_self hco'ws hlastco'
  rcases hsep with rfl | ⟨w, rfl, hw⟩
  · have hlast : ∀ c ∈ (num ++ ([] ++ co)).reverse.take 1, c.isWhitespace = false := by
      rw [List.nil_append, reverse_take1_append hne]
      exact hlastco
    unfold normalize_iphone_token
    rw [strip_collapse_numPart hnum hlast]
    rw [List.nil_append, hcoll]
    dsimp only
    rw [normParse_numPart hnum hcodg htail0]
    simpa [hstrip] using hkey
  · have hlast : ∀ c ∈ (num ++ ([w] ++ co)).reverse.take 1, c.isWhitespace = false := by
      rw [show num ++ ([w] ++ co) = (num ++ [w]) ++ co by simp,
        reverse_take1_append hne]
      exact hlastco
    unfold normalize_iphone_token
    rw [strip_collapse_numPart hnum hlast]
    rw [collapseWsAux_ws_run (by intro c hc; simp at hc; subst hc; exact hw) (by simp) hcows,
      hcoll]
    dsimp only
    rw [normParse_numPart hnum (by intro c hc; simp at hc; subst hc; decide) htail1]
    simpa [hstrip] using hkey

theorem dataPro : "Pro".data = ['P', 'r', 'o'] := rfl
theorem dataXL : "XL".data = ['X', 'L'] := rfl
theorem dataProXL : "Pro XL".data = ['P', 'r', 'o', ' ', 'X', 'L'] := rfl
theorem dataA : "a".data = ['a'] := rfl
theorem dataPlus : "Plus".data = ['P', 'l', 'u', 's'] := rfl
theorem dataMini : "Mini".data = ['M', 'i', 'n', 'i'] := rfl
theorem dataMax : "Max".data = ['M', 'a', 'x'] := rfl

theorem spaceWs : (' ' : Char).isWhitespace = true := rfl

theorem pixel_norm_pro {num sep : List Char} (hnum : NumOk num)
    (hsep : sep = [] ∨ ∃ w, sep = [w] ∧ w.isWhitespace = true)
    {c1 c2 c3 : Char} (h1 : c1.toLower = 'p') (h2 : c2.toLower = 'r')
    (h3 : c3.toLower = 'o') :
    normalize_model_token (num ++ (sep ++ [c1, c2, c3])) ≠ none := by
  obtain ⟨hws1, hdg1⟩ := not_ws_digit_of_toLower_letter h1 (by decide) (by decide)
  obtain ⟨hws2, _⟩ := not_ws_digit_of_toLower_letter h2 (by decide) (by decide)
  obtain ⟨hws3, _⟩ := not_ws_digit_of_toLower_letter h3 (by decide) (by decide)
  refine pixel_norm_generic hnum hsep
    (collapseWsAux_of_all_not_ws false
      (by intro c hc; simp at hc; rcases hc with rfl | rfl | rfl <;> assumption))
    (by intro c hc; simp at hc; subst hc; exact hws1)
    (by intro c hc; simp at hc; subst hc; exact hdg1)
    (by intro c hc; simp at hc; subst hc; exact hws3)
    (by simp) ?_ ?_ ?_
  · simp [normTail, normCandidates, firstDollarOk, atDollar, matchAtoms, ciStrip, wsPlus,
      pixelAltsAll, dataPro, dataXL, dataProXL, dataA, h1, h2, h3, hws1]
  · simp [normTail, normCandidates, firstDollarOk, atDollar, matchAtoms, ciStrip, wsPlus,
      pixelAltsAll, dataPro, dataXL, dataProXL, dataA, h1, h2, h3, spaceWs]
  · rw [List.reverse_reverse,
      show String.mk (lowerL [c1, c2, c3]) = "pro" from by simp [lowerL, h1, h2, h3]]
    exact pixelRender_key (by simp)

theorem spaceLower : (' ' : Char).toLower = ' ' := rfl

theorem pixel_norm_num {num : List Char} (hnum : NumOk num) :
    normalize_model_token num ≠ none := by
  rcases hnum with ⟨d1, rfl, hd1, hd1'⟩ | ⟨d1, d2, rfl, hd1, hd1', hd2⟩
  · have hw1 := not_isWhitespace_of_isDigit hd1
    have he : normalize_model_token [d1] = pixelRender [d1] "" := by
      simp [normalize_model_token, pyStrip, collapseWs, collapseWsAux, hw1, normParse,
        hd1, hd1', normTail, normCandidates, firstDollarOk, atDollar, matchAtoms, ciStrip,
        wsPlus, pixelAltsAll, lowerL]
    rw [he]
    exact pixelRender_key (by simp)
  · have hw1 := not_isWhitespace_of_isDigit hd1
    have hw2 := not_isWhitespace_of_isDigit hd2
    have he : normalize_model_token [d1, d2] = pixelRender [d1, d2] "" := by
      simp [normalize_model_token, pyStrip, collapseWs, collapseWsAux, hw1, hw2, normParse,
        hd1, hd1', hd2, normTail, normCandidates, firstDollarOk, atDollar, matchAtoms,
        ciStrip, wsPlus, pixelAltsAll, lowerL]
    rw [he]
    exact pixelRender_key (by simp)

theorem iphone_norm_num {num : List Char} (hnum : NumOk num) :
    normalize_iphone_token num ≠ none := by
  rcases hnum with ⟨d1, rfl, hd1, hd1'⟩ | ⟨d1, d2, rfl, hd1, hd1', hd2⟩
  · have hw1 := not_isWhitespace_of_isDigit hd1
    have he : normalize_iphone_token [d1] = iphoneRender [d1] "" := by
      simp [normalize_iphone_token, pyStrip, collapseWs, collapseWsAux, hw1, normParse,
        hd1, hd1', normTail, normCandidates, firstDollarOk, atDollar, matchAtoms, ciStrip,
        wsPlus, iphoneAlts, lowerL]
    rw [he]
    exact iphoneRender_key (by simp)
  · have hw1 := not_isWhitespace_of_isDigit hd1
    have hw2 := not_isWhitespace_of_isDigit hd2
    have he : normalize_iphone_token [d1, d2] = iphoneRender [d1, d2] "" := by
      simp [normalize_iphone_token, pyStrip, collapseWs, collapseWsAux, hw1, hw2, normParse,
        hd1, hd1', hd2, normTail, normCandidates, firstDollarOk, atDollar, matchAtoms,
        ciStrip, wsPlus, iphoneAlts, lowerL]
    rw [he]
    exact iphoneRender_key (by simp)

theorem pixel_norm_xl {num sep : List Char} (hnum : NumOk num)
    (hsep : sep = [] ∨ ∃ w, sep = [w] ∧ w.isWhitespace = true)
    {c1 c2 : Char} (h1 : c1.toLower = 'x') (h2 : c2.toLower = 'l') :
    normalize_model_token (num ++ (sep ++ [c1, c2])) ≠ none := by
  obtain ⟨hws1, hdg1⟩ := not_ws_digit_of_toLower_letter h1 (by decide) (by decide)
  obtain ⟨hws2, _⟩ := not_ws_digit_of_toLower_letter h2 (by decide) (by decide)
  refine pixel_norm_generic hnum hsep
    (collapseWsAux_of_all_not_ws false
      (by intro c hc; simp at hc; rcases hc with rfl | rfl <;> assumption))
    (by intro c hc; simp at hc; subst hc; exact hws1)
    (by intro c hc; simp at hc; subst hc; exact hdg1)
    (by intro c hc; simp at hc; subst hc; exact hws2)
    (by simp) ?_ ?_ ?_
  · simp [normTail, normCandidates, firstDollarOk, atDollar, matchAtoms, ciStrip, wsPlus,
      pixelAltsAll, dataPro, dataXL, dataProXL, dataA, h1, h2, hws1]
  · simp [normTail, normCandidates, firstDollarOk, atDollar, matchAtoms, ciStrip, wsPlus,
      pixelAltsAll, dataPro, dataXL, dataProXL, dataA, h1, h2, spaceWs]
  · rw [List.reverse_reverse,
      show String.mk (lowerL [c1, c2]) = "xl" from by simp [lowerL, h1, h2]]
    exact pixelRender_key (by simp)

theorem pixel_norm_a {num sep : List Char} (hnum : NumOk num)
    (hsep : sep = [] ∨ ∃ w, sep = [w] ∧ w.isWhitespace = true)
    {c1 : Char} (h1 : c1.toLower = 'a') :
    normalize_model_token (num ++ (sep ++ [c1])) ≠ none := by
  obtain ⟨hws1, hdg1⟩ := not_ws_digit_of_toLower_letter h1 (by decide) (by decide)
  refine pixel_norm_generic hnum hsep
    (collapseWsAux_of_all_not_ws false
      (by intro c hc; simp at hc; subst hc; assumption))
    (by intro c hc; simp at hc; subst hc; exact hws1)
    (by intro c hc; simp at hc; subst hc; exact hdg1)
    (by intro c hc; simp at hc; subst hc; exact hws1)
    (by simp) ?_ ?_ ?_
  · simp [normTail, normCandidates, firstDollarOk, atDollar, matchAtoms, ciStrip, wsPlus,
      pixelAltsAll, dataPro, dataXL, dataProXL, dataA, h1, hws1]
  · simp [normTail, normCandidates, firstDollarOk, atDollar, matchAtoms, ciStrip, wsPlus,
      pixelAltsAll, dataPro, dataXL, dataProXL, dataA, h1, spaceWs]
  · rw [List.reverse_reverse,
      show String.mk (lowerL [c1]) = "a" from by simp [lowerL, h1]]
    exact pixelRender_key (by simp)

theorem pixel_norm_proxl {num sep : List Char} (hnum : NumOk num)
    (hsep : sep = [] ∨ ∃ w, sep = [w] ∧ w.isWhitespace = true)
    {c1 c2 c3 c4 c5 c6 : Char} (h1 : c1.toLower = 'p') (h2 : c2.toLower = 'r')
    (h3 : c3.toLower = 'o') (h4 : c4.toLower = ' ') (h5 : c5.toLower = 'x')
    (h6 : c6.toLower = 'l') :
    normalize_model_token (num ++ (sep ++ [c1, c2, c3, c4, c5, c6])) ≠ none := by
  obtain ⟨hws1, hdg1⟩ := not_ws_digit_of_toLower_letter h1 (by decide) (by decide)
  obtain ⟨hws2, _⟩ := not_ws_digit_of_toLower_letter h2 (by decide) (by decide)
  obtain ⟨hws3, _⟩ := not_ws_digit_of_toLower_letter h3 (by decide) (by decide)
  obtain ⟨hws5, _⟩ := not_ws_digit_of_toLower_letter h5 (by decide) (by decide)
  obtain ⟨hws6, _⟩ := not_ws_digit_of_toLower_letter h6 (by decide) (by decide)
  have hc4 : c4 = ' ' := eq_space_of_toLower_space h4
  subst hc4
  have hcoll : collapseWsAux false [c1, c2, c3, ' ', c5, c6] = [c1, c2, c3, ' ', c5, c6] := by
    rw [show [c1, c2, c3, ' ', c5, c6] = [c1, c2, c3] ++ ([' '] ++ [c5, c6]) from by simp]
    rw [collapseWsAux_append_not_ws false
      (by intro c hc; simp at hc; rcases hc with rfl | rfl | rfl <;> assumption) (by simp)]
    rw [collapseWsAux_ws_run (by intro c hc; simp at hc; subst hc; rfl) (by simp)
      (by intro c hc; simp at hc; subst hc; exact hws5)]
    rw [collapseWsAux_of_all_not_ws false
      (by intro c hc; simp at hc; rcases hc with rfl | rfl <;> assumption)]
    simp
  refine pixel_norm_generic hnum hsep hcoll
    (by intro c hc; simp at hc; subst hc; exact hws1)
    (by intro c hc; simp at hc; subst hc; exact hdg1)
    (by intro c hc; simp at hc; subst hc; exact hws6)
    (by simp) ?_ ?_ ?_
  · simp [normTail, normCandidates, firstDollarOk, atDollar, matchAtoms, ciStrip, wsPlus,
      pixelAltsAll, dataPro, dataXL, dataProXL, dataA, h1, h2, h3, h5, h6, hws1, spaceWs,
      spaceLower]
  · simp [normTail, normCandidates, firstDollarOk, atDollar, matchAtoms, ciStrip, wsPlus,
      pixelAltsAll, dataPro, dataXL, dataProXL, dataA, h1, h2, h3, h5, h6, spaceWs,
      spaceLower]
  · rw [List.reverse_reverse,
      show String.mk (lowerL [c1, c2, c3, ' ', c5, c6]) = "pro xl" from by
        simp [lowerL, h1, h2, h3, h5, h6, spaceLower]]
    exact pixelRender_key (by simp)

theorem iphone_norm_pro {num sep : List Char} (hnum : NumOk num)
    (hsep : sep = [] ∨ ∃ w, sep = [w] ∧ w.isWhitespace = true)
    {c1 c2 c3 : Char} (h1 : c1.toLower = 'p') (h2 : c2.toLower = 'r')
    (h3 : c3.toLower = 'o') :
    normalize_iphone_token (num ++ (sep ++ [c1, c2, c3])) ≠ none := by
  obtain ⟨hws1, hdg1⟩ := not_ws_digit_of_toLower_letter h1 (by decide) (by decide)
  obtain ⟨hws2, _⟩ := not_ws_digit_of_toLower_letter h2 (by decide) (by decide)
  obtain ⟨hws3, _⟩ := not_ws_digit_of_toLower_letter h3 (by decide) (by decide)
  refine iphone_norm_generic hnum hsep
    (collapseWsAux_of_all_not_ws false
      (by intro c hc; simp at hc; rcases hc with rfl | rfl | rfl <;> assumption))
    (by intro c hc; simp at hc; subst hc; exact hws1)
    (by intro c hc; simp at hc; subst hc; exact hdg1)
    (by intro c hc; simp at hc; subst hc; exact hws1)
    (by intro c hc; simp at hc; subst hc; exact hws3)
    (by intro c hc; simp at hc; subst hc; exact hws3)
    (by simp) ?_ ?_ ?_
  · simp [normTail, normCandidates, firstDollarOk, atDollar, matchAtoms, ciStrip, wsPlus,
      iphoneAlts, dataPro, dataPlus, dataMini, dataMax, h1, h2, h3, hws1]
  · simp [normTail, normCandidates, firstDollarOk, atDollar, matchAtoms, ciStrip, wsPlus,
      iphoneAlts, dataPro, dataPlus, dataMini, dataMax, h1, h2, h3, spaceWs]
  · rw [show String.mk (lowerL [c1, c2, c3]) = "pro" from by simp [lowerL, h1, h2, h3]]
    exact iphoneRender_key (by simp)

theorem iphone_norm_plus {num sep : List Char} (hnum : NumOk num)
    (hsep : sep = [] ∨ ∃ w, sep = [w] ∧ w.isWhitespace = true)
    {c1 c2 c3 c4 : Char} (h1 : c1.toLower = 'p') (h2 : c2.toLower = 'l')
    (h3 : c3.toLower = 'u') (h4 : c4.toLower = 's') :
    normalize_iphone_token (num ++ (sep ++ [c1, c2, c3, c4])) ≠ none := by
  obtain ⟨hws1, hdg1⟩ := not_ws_digit_of_toLower_letter h1 (by decide) (by decide)
  obtain ⟨hws2, _⟩ := not_ws_digit_of_toLower_letter h2 (by decide) (by decide)
  obtain ⟨hws3, _⟩ := not_ws_digit_of_toLower_letter h3 (by decide) (by decide)
  obtain ⟨hws4, _⟩ := not_ws_digit_of_toLower_letter h4 (by decide) (by decide)
  refine iphone_norm_generic hnum hsep
    (collapseWsAux_of_all_not_ws false
      (by intro c hc; simp at hc; rcases hc with rfl | rfl | rfl | rfl <;> assumption))
    (by intro c hc; simp at hc; subst hc; exact hws1)
    (by intro c hc; simp at hc; subst hc; exact hdg1)
    (by intro c hc; simp at hc; subst hc; exact hws1)
    (by intro c hc; simp at hc; subst hc; exact hws4)
    (by intro c hc; simp at hc; subst hc; exact hws4)
    (by simp) ?_ ?_ ?_
  · simp [normTail, normCandidates, firstDollarOk, atDollar, matchAtoms, ciStrip, wsPlus,
      iphoneAlts, dataPro, dataPlus, dataMini, dataMax, h1, h2, h3, h4, hws1]
  · simp [normTail, normCandidates, firstDollarOk, atDollar, matchAtoms, ciStrip, wsPlus,
      iphoneAlts, dataPro, dataPlus, dataMini, dataMax, h1, h2, h3, h4, spaceWs]
  · rw [show String.mk (lowerL [c1, c2, c3, c4]) = "plus" from by
      simp [lowerL, h1, h2, h3, h4]]
    exact iphoneRender_key (by simp)

theorem iphone_norm_mini {num sep : List Char} (hnum : NumOk num)
    (hsep : sep = [] ∨ ∃ w, sep = [w] ∧ w.isWhitespace = true)
    {c1 c2 c3 c4 : Char} (h1 : c1.toLower = 'm') (h2 : c2.toLower = 'i')
    (h3 : c3.toLower = 'n') (h4 : c4.toLower = 'i') :
    normalize_iphone_token (num ++ (sep ++ [c1, c2, c3, c4])) ≠ none := by
  obtain ⟨hws1, hdg1⟩ := not_ws_digit_of_toLower_letter h1 (by decide) (by decide)
  obtain ⟨hws2, _⟩ := not_ws_digit_of_toLower_letter h2 (by decide) (by decide)
  obtain ⟨hws3, _⟩ := not_ws_digit_of_toLower_letter h3 (by decide) (by decide)
  obtain ⟨hws4, _⟩ := not_ws_digit_of_toLower_letter h4 (by decide) (by decide)
  refine iphone_norm_generic hnum hsep
    (collapseWsAux_of_all_not_ws false
      (by intro c hc; simp at hc; rcases hc with rfl | rfl | rfl | rfl <;> assumption))
    (by intro c hc; simp at hc; subst hc; exact hws1)
    (by intro c hc; simp at hc; subst hc; exact hdg1)
    (by intro c hc; simp at hc; subst hc; exact hws1)
    (by intro c hc; simp at hc; subst hc; exact hws4)
    (by intro c hc; simp at hc; subst hc; exact hws4)
    (by simp) ?_ ?_ ?_
  · simp [normTail, normCandidates, firstDollarOk, atDollar, matchAtoms, ciStrip, wsPlus,
      iphoneAlts, dataPro, dataPlus, dataMini, dataMax, h1, h2, h3, h4, hws1]
  · simp [normTail, normCandidates, firstDollarOk, atDollar, matchAtoms, ciStrip, wsPlus,
      iphoneAlts, dataPro, dataPlus, dataMini, dataMax, h1, h2, h3, h4, spaceWs]
  · rw [show String.mk (lowerL [c1, c2, c3, c4]) = "mini" from by
      simp [lowerL, h1, h2, h3, h4]]
    exact iphoneRender_key (by simp)

theorem iphone_norm_max {num sep : List Char} (hnum : NumOk num)
    (hsep : sep = [] ∨ ∃ w, sep = [w] ∧ w.isWhitespace = true)
    {c1 c2 c3 : Char} (h1 : c1.toLower = 'm') (h2 : c2.toLower = 'a')
    (h3 : c3.toLower = 'x') :
    normalize_iphone_token (num ++ (sep ++ [c1, c2, c3])) ≠ none := by
  obtain ⟨hws1, hdg1⟩ := not_ws_digit_of_toLower_letter h1 (by decide) (by decide)
  obtain ⟨hws2, _⟩ := not_ws_digit_of_toLower_letter h2 (by decide) (by decide)
  obtain ⟨hws3, _⟩ := not_ws_digit_of_toLower_letter h3 (by decide) (by decide)
  refine iphone_norm_generic hnum hsep
    (collapseWsAux_of_all_not_ws false
      (by intro c hc; simp at hc; rcases hc with rfl | rfl | rfl <;> assumption))
    (by intro c hc; simp at hc; subst hc; exact hws1)
    (by intro c hc; simp at hc; subst hc; exact hdg1)
    (by intro c hc; simp at hc; subst hc; exact hws1)
    (by intro c hc; simp at hc; subst hc; exact hws3)
    (by intro c hc; simp at hc; subst hc; exact hws3)
    (by simp) ?_ ?_ ?_
  · simp [normTail, normCandidates, firstDollarOk, atDollar, matchAtoms, ciStrip, wsPlus,
      iphoneAlts, dataPro, dataPlus, dataMini, dataMax, h1, h2, h3, hws1]
  · simp [normTail, normCandidates, firstDollarOk, atDollar, matchAtoms, ciStrip, wsPlus,
      iphoneAlts, dataPro, dataPlus, dataMini, dataMax, h1, h2, h3, spaceWs]
  · rw [show String.mk (lowerL [c1, c2, c3]) = "max" from by simp [lowerL, h1, h2, h3]]
    exact iphoneRender_key (by simp)

theorem iphone_norm_promax {num sep : List Char} (hnum : NumOk num)
    (hsep : sep = [] ∨ ∃ w, sep = [w] ∧ w.isWhitespace = true)
    {c1 c2 c3 c4 c5 c6 : Char} {wr : List Char}
    (h1 : c1.toLower = 'p') (h2 : c2.toLower = 'r') (h3 : c3.toLower = 'o')
    (hwr : ∀ c ∈ wr, c.isWhitespace = true) (hwrne : wr ≠ [])
    (h4 : c4.toLower = 'm') (h5 : c5.toLower = 'a') (h6 : c6.toLower = 'x') :
    normalize_iphone_token (num ++ (sep ++ ([c1, c2, c3] ++ wr ++ [c4, c5, c6]))) ≠ none := by
  obtain ⟨hws1, hdg1⟩ := not_ws_digit_of_toLower_letter h1 (by decide) (by decide)
  obtain ⟨hws2, _⟩ := not_ws_digit_of_toLower_letter h2 (by decide) (by decide)
  obtain ⟨hws3, _⟩ := not_ws_digit_of_toLower_letter h3 (by decide) (by decide)
  obtain ⟨hws4, _⟩ := not_ws_digit_of_toLower_letter h4 (by decide) (by decide)
  obtain ⟨hws5, _⟩ := not_ws_digit_of_toLower_letter h5 (by decide) (by decide)
  obtain ⟨hws6, _⟩ := not_ws_digit_of_toLower_letter h6 (by decide) (by decide)
  have hcoll : collapseWsAux false ([c1, c2, c3] ++ wr ++ [c4, c5, c6])
      = [c1, c2, c3, ' ', c4, c5, c6] := by
    rw [List.append_assoc, collapseWsAux_append_not_ws false
      (by intro c hc; simp at hc; rcases hc with rfl | rfl | rfl <;> assumption) (by simp)]
    rw [collapseWsAux_ws_run hwr hwrne
      (by intro c hc; simp at hc; subst hc; exact hws4)]
    rw [collapseWsAux_of_all_not_ws false
      (by intro c hc; simp at hc; rcases hc with rfl | rfl | rfl <;> assumption)]
    simp
  refine iphone_norm_generic hnum hsep hcoll
    (by intro c hc; simp at hc; subst hc; exact hws1)
    (by intro c hc; simp at hc; subst hc; exact hdg1)
    (by intro c hc; simp at hc; subst hc; exact hws1)
    (by intro c hc; simp [List.reverse_append] at hc; subst hc; exact hws6)
    (by intro c hc; simp at hc; subst hc; exact hws6)
    (by simp) ?_ ?_ ?_
  · simp [normTail, normCandidates, firstDollarOk, atDollar, matchAtoms, ciStrip, wsPlus,
      iphoneAlts, dataPro, dataPlus, dataMini, dataMax, h1, h2, h3, h4, h5, h6, hws1,
      hws4, spaceWs, spaceLower]
  · simp [normTail, normCandidates, firstDollarOk, atDollar, matchAtoms, ciStrip, wsPlus,
      iphoneAlts, dataPro, dataPlus, dataMini, dataMax, h1, h2, h3, h4, h5, h6, hws4,
      spaceWs, spaceLower]
  · rw [show String.mk (lowerL [c1, c2, c3, ' ', c4, c5, c6]) = "pro max" from by
      simp [lowerL, h1, h2, h3, h4, h5, h6, spaceLower]]
    exact iphoneRender_key (by simp)

theorem f2_1 {p1 : Char} {co : List Char} (h : List.Forall₂ ciR [p1] co) :
    ∃ x1, co = [x1] ∧ x1.toLower = p1.toLower := by
  cases h with
  | cons h1 htl => cases htl; exact ⟨_, rfl, h1⟩

theorem f2_2 {p1 p2 : Char} {co : List Char} (h : List.Forall₂ ciR [p1, p2] co) :
    ∃ x1 x2, co = [x1, x2] ∧ x1.toLower = p1.toLower ∧ x2.toLower = p2.toLower := by
  cases h with
  | cons h1 htl =>
    obtain ⟨x2, rfl, h2⟩ := f2_1 htl
    exact ⟨_, _, rfl, h1, h2⟩

theorem f2_3 {p1 p2 p3 : Char} {co : List Char} (h : List.Forall₂ ciR [p1, p2, p3] co) :
    ∃ x1 x2 x3, co = [x1, x2, x3] ∧ x1.toLower = p1.toLower ∧ x2.toLower = p2.toLower ∧
      x3.toLower = p3.toLower := by
  cases h with
  | cons h1 htl =>
    obtain ⟨x2, x3, rfl, h2, h3⟩ := f2_2 htl
    exact ⟨_, _, _, rfl, h1, h2, h3⟩

theorem f2_4 {p1 p2 p3 p4 : Char} {co : List Char}
    (h : List.Forall₂ ciR [p1, p2, p3, p4] co) :
    ∃ x1 x2 x3 x4, co = [x1, x2, x3, x4] ∧ x1.toLower = p1.toLower ∧
      x2.toLower = p2.toLower ∧ x3.toLower = p3.toLower ∧ x4.toLower = p4.toLower := by
  cases h with
  | cons h1 htl =>
    obtain ⟨x2, x3, x4, rfl, h2, h3, h4⟩ := f2_3 htl
    exact ⟨_, _, _, _, rfl, h1, h2, h3, h4⟩

theorem f2_6 {p1 p2 p3 p4 p5 p6 : Char} {co : List Char}
    (h : List.Forall₂ ciR [p1, p2, p3, p4, p5, p6] co) :
    ∃ x1 x2 x3 x4 x5 x6, co = [x1, x2, x3, x4, x5, x6] ∧ x1.toLower = p1.toLower ∧
      x2.toLower = p2.toLower ∧ x3.toLower = p3.toLower ∧ x4.toLower = p4.toLower ∧
      x5.toLower = p5.toLower ∧ x6.toLower = p6.toLower := by
  cases h with
  | cons h1 htl =>
    cases htl with
    | cons h2 htl2 =>
      obtain ⟨x3, x4, x5, x6, rfl, h3, h4, h5, h6⟩ := f2_4 htl2
      exact ⟨_, _, _, _, _, _, rfl, h1, h2, h3, h4, h5, h6⟩

theorem pixel_token_norm {tok : List Char}
    (H : ∃ s' r', matchFamilyAt "Google".data "Pixel".data pixelAltsAll true s'
      = some (tok, r')) :
    normalize_model_token tok ≠ none := by
  obtain ⟨s', r', H⟩ := H
  obtain ⟨s₂, r₂, Hc⟩ := matchFamilyAt_to_core H
  obtain ⟨num, co, s₃, r₃, hnum, rfl, hmem⟩ := matchFamilyCore_shape Hc
  rcases altCandidates_cases hmem with rfl | ⟨a, ha, s₁, r₁, hma⟩ |
    ⟨a, ha, w, co₁, s₁, r₁, rfl, hw, hma⟩
  · rw [List.append_nil]
    exact pixel_norm_num hnum
  · simp only [pixelAltsAll, List.mem_cons, List.not_mem_nil, or_false] at ha
    rcases ha with rfl | rfl | rfl | rfl
    · obtain ⟨x1, x2, x3, rfl, h1, h2, h3⟩ := f2_3 (matchAtoms_single_lit hma)
      exact pixel_norm_pro hnum (Or.inl rfl) h1 h2 h3
    · obtain ⟨x1, x2, rfl, h1, h2⟩ := f2_2 (matchAtoms_single_lit hma)
      exact pixel_norm_xl hnum (Or.inl rfl) h1 h2
    · obtain ⟨x1, x2, x3, x4, x5, x6, rfl, h1, h2, h3, h4, h5, h6⟩ := f2_6
        (matchAtoms_single_lit hma)
      exact pixel_norm_proxl hnum (Or.inl rfl) h1 h2 h3 h4 h5 h6
    · obtain ⟨x1, rfl, h1⟩ := f2_1 (matchAtoms_single_lit hma)
      exact pixel_norm_a hnum (Or.inl rfl) h1
  · simp only [pixelAltsAll, List.mem_cons, List.not_mem_nil, or_false] at ha
    rcases ha with rfl | rfl | rfl | rfl
    · obtain ⟨x1, x2, x3, rfl, h1, h2, h3⟩ := f2_3 (matchAtoms_single_lit hma)
      exact pixel_norm_pro hnum (Or.inr ⟨w, rfl, hw⟩) h1 h2 h3
    · obtain ⟨x1, x2, rfl, h1, h2⟩ := f2_2 (matchAtoms_single_lit hma)
      exact pixel_norm_xl hnum (Or.inr ⟨w, rfl, hw⟩) h1 h2
    · obtain ⟨x1, x2, x3, x4, x5, x6, rfl, h1, h2, h3, h4, h5, h6⟩ := f2_6
        (matchAtoms_single_lit hma)
      exact pixel_norm_proxl hnum (Or.inr ⟨w, rfl, hw⟩) h1 h2 h3 h4 h5 h6
    · obtain ⟨x1, rfl, h1⟩ := f2_1 (matchAtoms_single_lit hma)
      exact pixel_norm_a hnum (Or.inr ⟨w, rfl, hw⟩) h1

theorem iphone_token_norm {tok : List Char}
    (H : ∃ s' r', matchFamilyAt "Apple".data "iPhone".data iphoneAlts false s'
      = some (tok, r')) :
    normalize_iphone_token tok ≠ none := by
  obtain ⟨s', r', H⟩ := H
  obtain ⟨s₂, r₂, Hc⟩ := matchFamilyAt_to_core H
  obtain ⟨num, co, s₃, r₃, hnum, rfl, hmem⟩ := matchFamilyCore_shape Hc
  rcases altCandidates_cases hmem with rfl | ⟨a, ha, s₁, r₁, hma⟩ |
    ⟨a, ha, w, co₁, s₁, r₁, rfl, hw, hma⟩
  · rw [List.append_nil]
    exact iphone_norm_num hnum
  · simp only [iphoneAlts, List.mem_cons, List.not_mem_nil, or_false] at ha
    rcases ha with rfl | rfl | rfl | rfl | rfl
    · obtain ⟨cp, wr, cm, rfl, hfp, hwne, hwall, hfm⟩ := matchAtoms_lit_ws_lit hma
      obtain ⟨x1, x2, x3, rfl, h1, h2, h3⟩ := f2_3 hfp
      obtain ⟨x4, x5, x6, rfl, h4, h5, h6⟩ := f2_3 hfm
      exact iphone_norm_promax hnum (Or.inl rfl) h1 h2 h3 hwall hwne h4 h5 h6
    · obtain ⟨x1, x2, x3, rfl, h1, h2, h3⟩ := f2_3 (matchAtoms_single_lit hma)
      exact iphone_norm_pro hnum (Or.inl rfl) h1 h2 h3
    · obtain ⟨x1, x2, x3, x4, rfl, h1, h2, h3, h4⟩ := f2_4 (matchAtoms_single_lit hma)
      exact iphone_norm_plus hnum (Or.inl rfl) h1 h2 h3 h4
    · obtain ⟨x1, x2, x3, x4, rfl, h1, h2, h3, h4⟩ := f2_4 (matchAtoms_single_lit hma)
      exact iphone_norm_mini hnum (Or.inl rfl) h1 h2 h3 h4
    · obtain ⟨x1, x2, x3, rfl, h1, h2, h3⟩ := f2_3 (matchAtoms_single_lit hma)
      exact iphone_norm_max hnum (Or.inl rfl) h1 h2 h3
  · simp only [iphoneAlts, List.mem_cons, List.not_mem_nil, or_false] at ha
    rcases ha with rfl | rfl | rfl | rfl | rfl
    · obtain ⟨cp, wr, cm, rfl, hfp, hwne, hwall, hfm⟩ := matchAtoms_lit_ws_lit hma
      obtain ⟨x1, x2, x3, rfl, h1, h2, h3⟩ := f2_3 hfp
      obtain ⟨x4, x5, x6, rfl, h4, h5, h6⟩ := f2_3 hfm
      exact iphone_norm_promax hnum (Or.inr ⟨w, rfl, hw⟩) h1 h2 h3 hwall hwne h4 h5 h6
    · obtain ⟨x1, x2, x3, rfl, h1, h2, h3⟩ := f2_3 (matchAtoms_single_lit hma)
      exact iphone_norm_pro hnum (Or.inr ⟨w, rfl, hw⟩) h1 h2 h3
    · obtain ⟨x1, x2, x3, x4, rfl, h1, h2, h3, h4⟩ := f2_4 (matchAtoms_single_lit hma)
      exact iphone_norm_plus hnum (Or.inr ⟨w, rfl, hw⟩) h1 h2 h3 h4
    · obtain ⟨x1, x2, x3, x4, rfl, h1, h2, h3, h4⟩ := f2_4 (matchAtoms_single_lit hma)
      exact iphone_norm_mini hnum (Or.inr ⟨w, rfl, hw⟩) h1 h2 h3 h4
    · obtain ⟨x1, x2, x3, rfl, h1, h2, h3⟩ := f2_3 (matchAtoms_single_lit hma)
      exact iphone_norm_max hnum (Or.inr ⟨w, rfl, hw⟩) h1 h2 h3

/-- C9: every token captured by the pixel scanner `MODEL_RE` or the iPhone
scanner `IPHONE_MODEL_RE` normalizes successfully — the normalizers' failure
branch is unreachable on scanner output, so an absent model can only arise
from zero or several distinct canonical models, never from a captured token
failing to normalize. -/
theorem C9_scanner_tokens_normalize (title : String) :
    (∀ tok ∈ MODEL_RE_tokens title.data, normalize_model_token tok ≠ none) ∧
    (∀ tok ∈ IPHONE_MODEL_RE_tokens title.data, normalize_iphone_token tok ≠ none) := by
  constructor
  · intro tok htok
    have htok2 : tok ∈ scanAux "Google".data "Pixel".data pixelAltsAll true
        title.data.length title.data := htok
    exact pixel_token_norm (scanAux_mem htok2)
  · intro tok htok
    have htok2 : tok ∈ scanAux "Apple".data "iPhone".data iphoneAlts false
        title.data.length title.data := htok
    exact iphone_token_norm (scanAux_mem htok2)

theorem C9_witness :
    normalize_model_token "9 Pro".data ≠ none ∧
    normalize_iphone_token "13".data ≠ none :=
  ⟨(C9_scanner_tokens_normalize "Pixel 9 Pro").1 "9 Pro".data (by decide),
   (C9_scanner_tokens_normalize "iPhone 13").2 "13".data (by decide)⟩
